import Mathlib

/-!
Shallow embedding of `layeredCanopyRT.py`: the Meador-Weaver two-stream
optical properties of a single canopy layer (`getGamma`, `rtDirect`,
`tUncollidedDirect`, `rtDiffuse`) and the multi-layer adding algorithm
(`getFluxesCanopyDif`, `getFluxesCanopyDir`, `getFluxes`).

Machine floats are modelled by real numbers; the geometry collaborator
(`leafGeometry`, out of scope per the specification) is modelled by the
scalar values it supplies to a layer: `G(mu)`, `Z(mu)`, `B_diffuse()`,
`B_direct()` and `muBar()`.  A Python exception is modelled by
`Except.error`.
-/

noncomputable section

namespace CanopyRT

/-- State of one `canopyLayer` object: its parameters (including the
values supplied by the geometry collaborator) together with the flux
fields that the canopy-level passes write onto it. -/
@[ext]
structure canopyLayer where
  mu : ℝ
  leaf_r : ℝ
  leaf_t : ℝ
  lai : ℝ
  gval : ℝ
  zval : ℝ
  bDif : ℝ
  bDir : ℝ
  muBarVal : ℝ
  gamma_scaling_diffuse : String
  gamma_scaling_direct : String
  Iup_dif : ℝ := 0
  Idn_dif : ℝ := 0
  Iab_dif : ℝ := 0
  Iup_dir_u : ℝ := 0
  Iup_dir_c : ℝ := 0
  Idn_dir_u : ℝ := 0
  Idn_dir_c : ℝ := 0
  Iup_dir : ℝ := 0
  Idn_dir : ℝ := 0
  Iab_dir : ℝ := 0
  Iup : ℝ := 0
  Idn : ℝ := 0
  Iab : ℝ := 0

/-- Python property `w = leaf_r + leaf_t`. -/
def canopyLayer.w (l : canopyLayer) : ℝ := l.leaf_r + l.leaf_t

/-- Python property `d = leaf_r - leaf_t`. -/
def canopyLayer.d (l : canopyLayer) : ℝ := l.leaf_r - l.leaf_t

/-- Embedding of `canopyLayer.getGamma`.  `B` and `B0` are the values of
`self.B_diffuse()` and `self.B_direct()` (geometry collaborator), and
`muBar` the value of `self.muBar()`. -/
def getGamma (l : canopyLayer) (method : String) : Except String (ℝ × ℝ × ℝ × ℝ) :=
  let B := l.bDif
  let B0 := l.bDir
  if method = "delta" then
    let scale := 1 / (l.gval * l.muBarVal)
    Except.ok ((1 - (1 - B) * l.w) * scale, (l.w * B) * scale, B0, 1 - B0)
  else if method = "quad" then
    let scale := Real.sqrt 3
    Except.ok ((1 - (1 - B) * l.w) * scale, (l.w * B) * scale, B0, 1 - B0)
  else
    Except.error ("Unknown gamma scaling type:" ++ method)

/-- Embedding of `canopyLayer.rtDirect`. -/
def rtDirect (l : canopyLayer) : Except String (ℝ × ℝ) := do
  let (g1, g2, g3, g4) ← getGamma l l.gamma_scaling_direct
  let tau := l.lai * l.gval * l.zval
  let tauD := tau
  let a1 := g1 * g4 + g2 * g3
  let a2 := g1 * g3 + g2 * g4
  let k := Real.sqrt (g1 * g1 - g2 * g2)
  let D := (1 - k * k * l.mu * l.mu) *
      ((k + g1) * Real.exp (k * tauD) + (k - g1) * Real.exp (-(k * tauD)))
  let F := (1 - k * l.mu) * (a2 + k * g3) * Real.exp (k * tauD)
  let G := (1 + k * l.mu) * (a2 - k * g3) * Real.exp (-(k * tauD))
  let H := 2 * k * (g3 - a2 * l.mu) * Real.exp (-(tau / l.mu))
  let R := l.w / D * (F - G - H)
  let F2 := (1 + k * l.mu) * (a1 + k * g4) * Real.exp (k * tauD)
  let G2 := (1 - k * l.mu) * (a1 - k * g4) * Real.exp (-(k * tauD))
  let H2 := 2 * k * (g4 + a1 * l.mu) * Real.exp (tau / l.mu)
  let T := Real.exp (-(tau / l.mu)) * (1 - l.w / D * (F2 - G2 - H2))
  Except.ok (R, T)

/-- Embedding of `canopyLayer.tUncollidedDirect`. -/
def tUncollidedDirect (l : canopyLayer) : ℝ :=
  Real.exp (-(l.gval * l.zval * l.lai / l.mu))

/-- Embedding of `canopyLayer.rtDiffuse`. -/
def rtDiffuse (l : canopyLayer) : Except String (ℝ × ℝ) := do
  let (g1, g2, _, _) ← getGamma l l.gamma_scaling_diffuse
  let tau := l.lai * l.gval * l.zval
  let k := Real.sqrt (g1 * g1 - g2 * g2)
  let D := k + g1 + (k - g1) * Real.exp (-(2 * k * tau))
  let R := (g2 * (1 - Real.exp (-(2 * k * tau)))) / D
  let T := (2 * k * Real.exp (-(k * tau))) / D
  Except.ok (R, T)

/-- State of a `layeredCanopy` object: the ordered list of layers
(index 0 is the top layer) and the stack-level parameters. -/
@[ext]
structure layeredCanopy where
  mu : ℝ
  lower_boundary_r : ℝ
  propDif : ℝ
  layers : List canopyLayer

/-- Bottom-up adding loop of `getFluxesCanopyDif` (the first loop,
iterating from the lowest layer to the highest while accumulating
`R_last`).  Returns the final `R_last` together with the layers carrying
the written `Iup_dif`/`Idn_dif` fields. -/
def difUp (lbr : ℝ) : List canopyLayer → Except String (ℝ × List canopyLayer)
  | [] => Except.ok (lbr, [])
  | l :: rest => do
      let (R_last, restOut) ← difUp lbr rest
      let (R0, T0) ← rtDiffuse l
      let Z := R_last * R0
      let R := R0 + T0 * T0 * R_last * (1 + Z / (1 - Z))
      let T := T0 * (1 + Z / (1 - Z))
      Except.ok (R, { l with Iup_dif := R, Idn_dif := T } :: restOut)

/-- Top-down normalization loop of `getFluxesCanopyDif` (the second
loop): multiply each layer's stored fields by the running transmission
`T`, then fold the layer's own (unnormalized) transmission into `T`. -/
def difNorm (T : ℝ) : List canopyLayer → List canopyLayer
  | [] => []
  | l :: rest =>
      let t := l.Idn_dif
      { l with Iup_dif := l.Iup_dif * T, Idn_dif := l.Idn_dif * T } ::
        difNorm (T * t) rest

/-- Energy-balance loop of `getFluxesCanopyDif` (the third loop),
carrying the `Idn` of the layer above (`1` for the top layer). -/
def difAbs (lbr : ℝ) (idnAbove : ℝ) : List canopyLayer → List canopyLayer
  | [] => []
  | [l] =>
      [{ l with Iab_dif := |l.Idn_dif * lbr - l.Iup_dif + idnAbove - l.Idn_dif| }]
  | l :: l2 :: rest =>
      { l with Iab_dif := |l2.Iup_dif - l.Iup_dif + idnAbove - l.Idn_dif| } ::
        difAbs lbr l.Idn_dif (l2 :: rest)

/-- Embedding of `layeredCanopy.getFluxesCanopyDif`. -/
def getFluxesCanopyDif (c : layeredCanopy) : Except String layeredCanopy := do
  let (_, ls) ← difUp c.lower_boundary_r c.layers
  let ls2 := difNorm 1 ls
  let ls3 := difAbs c.lower_boundary_r 1 ls2
  Except.ok { c with layers := ls3 }

/-- Bottom-up adding loop of `getFluxesCanopyDir`, tracking the
uncollided (`Ru_last`) and collided (`Rc_last`) accumulated
reflectances. -/
def dirUp (lbr : ℝ) : List canopyLayer → Except String (ℝ × ℝ × List canopyLayer)
  | [] => Except.ok (lbr, lbr, [])
  | l :: rest => do
      let (Ru_last, Rc_last, restOut) ← dirUp lbr rest
      let (Ru, Tu) ← rtDirect l
      let (Rc, Tc) ← rtDiffuse l
      let U := tUncollidedDirect l
      let Z := Rc_last * Rc
      let RuNew := Ru + U * Ru_last * Tc * (1 + Z / (1 - Z)) +
        (Tu - U) * Rc_last * Tc * (1 + Z / (1 - Z))
      let TuNew := U + U * Ru_last * Rc * (1 + Z / (1 - Z)) +
        (Tu - U) * (1 + Z / (1 - Z))
      let RcNew := Rc + Tc * Rc_last * Tc * (1 + Z / (1 - Z))
      let TcNew := Tc * (1 + Z / (1 - Z))
      Except.ok (RuNew, RcNew,
        { l with Iup_dir_u := RuNew, Iup_dir_c := RcNew,
                 Idn_dir_u := TuNew, Idn_dir_c := TcNew } :: restOut)

/-- Top-down normalization loop of `getFluxesCanopyDir`, carrying the
running uncollided transmission `Tu` and collided transmission `Tc`. -/
def dirNorm (Tu Tc : ℝ) : List canopyLayer → List canopyLayer
  | [] => []
  | l :: rest =>
      let l1 := { l with Iup_dir_u := l.Iup_dir_u * Tu, Idn_dir_u := l.Idn_dir_u * Tu,
                         Iup_dir_c := l.Iup_dir_c * Tc, Idn_dir_c := l.Idn_dir_c * Tc }
      let l2 := { l1 with Iup_dir := l1.Iup_dir_c + l1.Iup_dir_u,
                          Idn_dir := l1.Idn_dir_c + l1.Idn_dir_u }
      let U := tUncollidedDirect l2
      let TuNew := Tu * U
      let S := l2.Idn_dir_u - TuNew
      let TcNew := l2.Idn_dir_c + S
      l2 :: dirNorm TuNew TcNew rest

/-- Energy-balance loop of `getFluxesCanopyDir`. -/
def dirAbs (lbr : ℝ) (idnAbove : ℝ) : List canopyLayer → List canopyLayer
  | [] => []
  | [l] =>
      [{ l with Iab_dir := |l.Idn_dir * lbr - l.Iup_dir + idnAbove - l.Idn_dir| }]
  | l :: l2 :: rest =>
      { l with Iab_dir := |l2.Iup_dir - l.Iup_dir + idnAbove - l.Idn_dir| } ::
        dirAbs lbr l.Idn_dir (l2 :: rest)

/-- Embedding of `layeredCanopy.getFluxesCanopyDir`. -/
def getFluxesCanopyDir (c : layeredCanopy) : Except String layeredCanopy := do
  let (_, _, ls) ← dirUp c.lower_boundary_r c.layers
  let ls2 := dirNorm 1 0 ls
  let ls3 := dirAbs c.lower_boundary_r 1 ls2
  Except.ok { c with layers := ls3 }

/-- Embedding of `layeredCanopy.getFluxes`: run the direct pass, then
the diffuse pass, then blend by the diffuse proportion `propDif`. -/
def getFluxes (c : layeredCanopy) : Except String layeredCanopy := do
  let p := c.propDif
  let c1 ← getFluxesCanopyDir c
  let c2 ← getFluxesCanopyDif c1
  Except.ok { c2 with layers := c2.layers.map (fun l =>
    { l with Iup := (1 - p) * l.Iup_dir + p * l.Iup_dif,
             Idn := (1 - p) * l.Idn_dir + p * l.Idn_dif,
             Iab := (1 - p) * l.Iab_dir + p * l.Iab_dif }) }

/-- A gamma-scaling policy string accepted by `getGamma`. -/
def supported (m : String) : Prop := m = "delta" ∨ m = "quad"

/-- Closed form of the diffuse reflectance/transmittance pair, written
from the specification text: `k = sqrt(g1^2-g2^2)`,
`D = k+g1+(k-g1)*exp(-2k*tau)`, `R = g2*(1-exp(-2k*tau))/D`,
`T = 2k*exp(-k*tau)/D`. -/
def rtDiffuseSpec (g1 g2 tau : ℝ) : ℝ × ℝ :=
  let k := Real.sqrt (g1 ^ 2 - g2 ^ 2)
  let D := k + g1 + (k - g1) * Real.exp (-(2 * k * tau))
  (g2 * (1 - Real.exp (-(2 * k * tau))) / D, 2 * k * Real.exp (-(k * tau)) / D)

/-- Example layer used to instantiate hypotheses of universally
quantified theorems at a concrete input. -/
def exLayer : canopyLayer where
  mu := 1
  leaf_r := 1/10
  leaf_t := 1/10
  lai := 1/5
  gval := 1/2
  zval := 1
  bDif := 1/2
  bDir := 1/2
  muBarVal := 1
  gamma_scaling_diffuse := "quad"
  gamma_scaling_direct := "quad"

/-- Layer whose leaf parameters make `g1 < g2` (so `k` is not real in
the source's floating-point arithmetic). -/
def badLayer : canopyLayer where
  mu := 1
  leaf_r := 3/5
  leaf_t := 3/5
  lai := 1/5
  gval := 1/2
  zval := 1
  bDif := 1/2
  bDir := 1/2
  muBarVal := 1
  gamma_scaling_diffuse := "quad"
  gamma_scaling_direct := "quad"

lemma getGamma_delta (l : canopyLayer) :
    getGamma l "delta" = Except.ok
      ((1 - (1 - l.bDif) * l.w) * (1 / (l.gval * l.muBarVal)),
       (l.w * l.bDif) * (1 / (l.gval * l.muBarVal)), l.bDir, 1 - l.bDir) := by
  simp [getGamma]

lemma getGamma_quad (l : canopyLayer) :
    getGamma l "quad" = Except.ok
      ((1 - (1 - l.bDif) * l.w) * Real.sqrt 3,
       (l.w * l.bDif) * Real.sqrt 3, l.bDir, 1 - l.bDir) := by
  simp [getGamma]

lemma getGamma_ok_of_supported (l : canopyLayer) {m : String} (h : supported m) :
    ∃ g, getGamma l m = Except.ok g := by
  rcases h with h | h <;> subst h
  · exact ⟨_, getGamma_delta l⟩
  · exact ⟨_, getGamma_quad l⟩

lemma getGamma_error_of_unsupported (l : canopyLayer) {m : String}
    (h : ¬ supported m) :
    getGamma l m = Except.error ("Unknown gamma scaling type:" ++ m) := by
  have h1 : ¬ m = "delta" := fun hm => h (Or.inl hm)
  have h2 : ¬ m = "quad" := fun hm => h (Or.inr hm)
  simp [getGamma, h1, h2]

lemma rtDiffuse_ok_of_supported (l : canopyLayer)
    (h : supported l.gamma_scaling_diffuse) : ∃ v, rtDiffuse l = Except.ok v := by
  obtain ⟨⟨g1, g2, g3, g4⟩, hg⟩ := getGamma_ok_of_supported l h
  exact ⟨_, by rw [rtDiffuse, hg]; rfl⟩

lemma rtDirect_ok_of_supported (l : canopyLayer)
    (h : supported l.gamma_scaling_direct) : ∃ v, rtDirect l = Except.ok v := by
  obtain ⟨⟨g1, g2, g3, g4⟩, hg⟩ := getGamma_ok_of_supported l h
  exact ⟨_, by rw [rtDirect, hg]; rfl⟩

/-- Claim C7: `getGamma(method)` succeeds exactly when the method is
`"delta"` or `"quad"`; every other method value fails with an error, and
the two supported values return the four coefficients with scale
`1/(G(mu)*muBar)` for `"delta"` and `sqrt 3` for `"quad"`. -/
theorem getGamma_characterization (l : canopyLayer) (m : String) :
    ((∃ g, getGamma l m = Except.ok g) ↔ supported m) ∧
    (¬ supported m →
      getGamma l m = Except.error ("Unknown gamma scaling type:" ++ m)) ∧
    getGamma l "delta" = Except.ok
      ((1 - (1 - l.bDif) * l.w) * (1 / (l.gval * l.muBarVal)),
       (l.w * l.bDif) * (1 / (l.gval * l.muBarVal)), l.bDir, 1 - l.bDir) ∧
    getGamma l "quad" = Except.ok
      ((1 - (1 - l.bDif) * l.w) * Real.sqrt 3,
       (l.w * l.bDif) * Real.sqrt 3, l.bDir, 1 - l.bDir) := by
  refine ⟨⟨fun ⟨g, hg⟩ => ?_, fun h => getGamma_ok_of_supported l h⟩,
    fun h => getGamma_error_of_unsupported l h, getGamma_delta l, getGamma_quad l⟩
  by_cases h : supported m
  · exact h
  · rw [getGamma_error_of_unsupported l h] at hg
    exact absurd hg (by simp)

/-- Claim C2: for a layer whose diffuse scaling policy is supported,
`rtDiffuse` returns exactly the pair `(R,T)` given by the spec's closed
forms, evaluated at the gamma coefficients `g1=(1-(1-B)w)*scale`,
`g2=(wB)*scale` (with `g3=B0`, `g4=1-g3` as returned by `getGamma`) and
`tau = lai*G(mu)*Z(mu)`. -/
theorem rtDiffuse_closed_form (l : canopyLayer)
    (h : supported l.gamma_scaling_diffuse) :
    ∃ scale : ℝ,
      (l.gamma_scaling_diffuse = "delta" → scale = 1 / (l.gval * l.muBarVal)) ∧
      (l.gamma_scaling_diffuse = "quad" → scale = Real.sqrt 3) ∧
      getGamma l l.gamma_scaling_diffuse = Except.ok
        ((1 - (1 - l.bDif) * l.w) * scale, (l.w * l.bDif) * scale,
         l.bDir, 1 - l.bDir) ∧
      rtDiffuse l = Except.ok (rtDiffuseSpec ((1 - (1 - l.bDif) * l.w) * scale)
        ((l.w * l.bDif) * scale) (l.lai * l.gval * l.zval)) := by
  have key : ∀ g1 g2 : ℝ,
      getGamma l l.gamma_scaling_diffuse = Except.ok (g1, g2, l.bDir, 1 - l.bDir) →
      rtDiffuse l = Except.ok (rtDiffuseSpec g1 g2 (l.lai * l.gval * l.zval)) := by
    intro g1 g2 hg
    rw [rtDiffuse, hg]
    show Except.ok _ = _
    rw [rtDiffuseSpec]
    have hsq : g1 ^ 2 - g2 ^ 2 = g1 * g1 - g2 * g2 := by ring
    simp only [hsq]
  rcases h with h | h
  · refine ⟨1 / (l.gval * l.muBarVal), fun _ => rfl, ?_, ?_, ?_⟩
    · intro hq; rw [h] at hq; exact absurd hq (by decide)
    · rw [h]; exact getGamma_delta l
    · exact key _ _ (by rw [h]; exact getGamma_delta l)
  · refine ⟨Real.sqrt 3, ?_, fun _ => rfl, ?_, ?_⟩
    · intro hq; rw [h] at hq; exact absurd hq (by decide)
    · rw [h]; exact getGamma_quad l
    · exact key _ _ (by rw [h]; exact getGamma_quad l)

/-- Witness for C2 at the concrete layer `exLayer`. -/
theorem rtDiffuse_closed_form_witness :
    supported exLayer.gamma_scaling_diffuse ∧
    ∃ scale : ℝ,
      (exLayer.gamma_scaling_diffuse = "delta" →
        scale = 1 / (exLayer.gval * exLayer.muBarVal)) ∧
      (exLayer.gamma_scaling_diffuse = "quad" → scale = Real.sqrt 3) ∧
      getGamma exLayer exLayer.gamma_scaling_diffuse = Except.ok
        ((1 - (1 - exLayer.bDif) * exLayer.w) * scale,
         (exLayer.w * exLayer.bDif) * scale, exLayer.bDir, 1 - exLayer.bDir) ∧
      rtDiffuse exLayer = Except.ok
        (rtDiffuseSpec ((1 - (1 - exLayer.bDif) * exLayer.w) * scale)
          ((exLayer.w * exLayer.bDif) * scale)
          (exLayer.lai * exLayer.gval * exLayer.zval)) :=
  ⟨Or.inr rfl, rtDiffuse_closed_form exLayer (Or.inr rfl)⟩

/-- Counterexample to claim C6: at `badLayer` the gamma coefficients
satisfy `g1 < g2` (non-real `k`), yet `rtDiffuse` and `rtDirect` return
normally instead of raising an error. -/
theorem no_invalid_regime_error_cex :
    (∃ g1 g2 g3 g4, getGamma badLayer badLayer.gamma_scaling_diffuse =
        Except.ok (g1, g2, g3, g4) ∧ g1 < g2) ∧
    (∃ v, rtDiffuse badLayer = Except.ok v) ∧
    (∃ v, rtDirect badLayer = Except.ok v) := by
  have hq : badLayer.gamma_scaling_diffuse = "quad" := rfl
  have hw : badLayer.w = 6/5 := by norm_num [canopyLayer.w, badLayer]
  refine ⟨⟨(1 - (1 - badLayer.bDif) * badLayer.w) * Real.sqrt 3,
      (badLayer.w * badLayer.bDif) * Real.sqrt 3, badLayer.bDir,
      1 - badLayer.bDir, by rw [hq]; exact getGamma_quad badLayer, ?_⟩,
    rtDiffuse_ok_of_supported badLayer (Or.inr rfl),
    rtDirect_ok_of_supported badLayer (Or.inr rfl)⟩
  have h3 : (0:ℝ) < Real.sqrt 3 := Real.sqrt_pos.mpr (by norm_num)
  rw [hw]
  show (1 - (1 - badLayer.bDif) * (6/5)) * Real.sqrt 3 <
    (6/5 * badLayer.bDif) * Real.sqrt 3
  have hb : badLayer.bDif = 1/2 := rfl
  rw [hb]
  nlinarith [h3]

/-- Claim C6 amended: the code contains no `InvalidOpticalRegime` guard
at all.  For every layer whose scaling policies are supported strings,
`rtDiffuse` and `rtDirect` return normally, regardless of whether
`g1 < g2` or the denominator `D` is near zero; the only error raised
anywhere in the optics is the unsupported-method error of `getGamma`. -/
theorem rt_never_raises (l : canopyLayer)
    (hd : supported l.gamma_scaling_diffuse)
    (hr : supported l.gamma_scaling_direct) :
    (∃ v, rtDiffuse l = Except.ok v) ∧ (∃ v, rtDirect l = Except.ok v) :=
  ⟨rtDiffuse_ok_of_supported l hd, rtDirect_ok_of_supported l hr⟩

/-- Witness for the amended C6 at the concrete layer `badLayer`. -/
theorem rt_never_raises_witness :
    (supported badLayer.gamma_scaling_diffuse ∧
     supported badLayer.gamma_scaling_direct) ∧
    (∃ v, rtDiffuse badLayer = Except.ok v) ∧
    (∃ v, rtDirect badLayer = Except.ok v) :=
  ⟨⟨Or.inr rfl, Or.inr rfl⟩, rt_never_raises badLayer (Or.inr rfl) (Or.inr rfl)⟩

/-- Projection of the per-layer diffuse flux pair `(Iup_dif, Idn_dif)`. -/
def difProj (l : canopyLayer) : ℝ × ℝ := (l.Iup_dif, l.Idn_dif)

/-- Written from the spec (C1): bottom-up combination — starting from
`R_last = lower_boundary_r`, for each layer from bottom to top combine
the layer `(R,T)` with the accumulated below-stack `R_last` via
`Z = R_last*R`, `R_new = R + T*T*R_last*(1+Z/(1-Z))`,
`T_new = T*(1+Z/(1-Z))`, storing `(R_new, T_new)` per layer.  The input
list is ordered top-to-bottom. -/
def specDifCombine (lbr : ℝ) : List (ℝ × ℝ) → ℝ × List (ℝ × ℝ)
  | [] => (lbr, [])
  | (R, T) :: rest =>
      let p := specDifCombine lbr rest
      let R_last := p.1
      let Z := R_last * R
      let Rn := R + T * T * R_last * (1 + Z / (1 - Z))
      let Tn := T * (1 + Z / (1 - Z))
      (Rn, (Rn, Tn) :: p.2)

/-- Written from the spec (C1): top-down normalization — starting with
unit incident flux, multiply each layer's stored pair by the cumulative
transmission `T` of the layers above, then multiply that layer's own
(stored) transmission into `T`. -/
def specDifNorm (T : ℝ) : List (ℝ × ℝ) → List (ℝ × ℝ)
  | [] => []
  | (iu, idn) :: rest => (iu * T, idn * T) :: specDifNorm (T * idn) rest

lemma difUp_eq (lbr : ℝ) {ls : List canopyLayer} {rts : List (ℝ × ℝ)}
    (h : List.Forall₂ (fun l v => rtDiffuse l = Except.ok v) ls rts) :
    difUp lbr ls = Except.ok ((specDifCombine lbr rts).1,
      List.zipWith (fun l (p : ℝ × ℝ) => { l with Iup_dif := p.1, Idn_dif := p.2 })
        ls (specDifCombine lbr rts).2) := by
  induction h with
  | nil => rfl
  | @cons l v ls2 rts2 hl hrest ih =>
      obtain ⟨R0, T0⟩ := v
      simp only [difUp, ih, hl, specDifCombine, List.zipWith]
      rfl

lemma specDifCombine_length (lbr : ℝ) :
    ∀ rts : List (ℝ × ℝ), (specDifCombine lbr rts).2.length = rts.length := by
  intro rts
  induction rts with
  | nil => rfl
  | cons p rest ih =>
      obtain ⟨R, T⟩ := p
      simp only [specDifCombine, List.length_cons, ih]

lemma map_difProj_zipWith :
    ∀ (ls : List canopyLayer) (ps : List (ℝ × ℝ)), ls.length = ps.length →
      (List.zipWith (fun l (p : ℝ × ℝ) =>
        { l with Iup_dif := p.1, Idn_dif := p.2 }) ls ps).map difProj = ps := by
  intro ls
  induction ls with
  | nil => intro ps h; cases ps <;> simp_all
  | cons l rest ih =>
      intro ps h
      cases ps with
      | nil => simp at h
      | cons p ps2 =>
          simp only [List.zipWith, List.map_cons, difProj]
          exact congrArg (fun t => _ :: t) (ih ps2 (by simpa using h))

lemma difNorm_proj : ∀ (ls : List canopyLayer) (T : ℝ),
    (difNorm T ls).map difProj = specDifNorm T (ls.map difProj) := by
  intro ls
  induction ls with
  | nil => intro T; rfl
  | cons l rest ih =>
      intro T
      simp only [difNorm, List.map_cons, difProj, specDifNorm, ih]

lemma difAbs_proj (lbr : ℝ) : ∀ (ls : List canopyLayer) (iA : ℝ),
    (difAbs lbr iA ls).map difProj = ls.map difProj := by
  intro ls
  induction ls with
  | nil => intro iA; rfl
  | cons l rest ih =>
      intro iA
      cases rest with
      | nil => rfl
      | cons l2 rest2 =>
          simp only [difAbs, List.map_cons, difProj] at ih ⊢
          rw [ih]

/-- Claim C1: for every stack, the diffuse pass succeeds whenever every
layer's `rtDiffuse` succeeds, and the resulting per-layer
`(Iup_dif, Idn_dif)` fields equal the spec's bottom-up adding recursion
(`specDifCombine`, seeded from `lower_boundary_r`) followed by the
spec's top-down normalization from unit incident flux
(`specDifNorm 1`). -/
theorem diffuse_pass_spec (c : layeredCanopy) (rts : List (ℝ × ℝ))
    (h : List.Forall₂ (fun l v => rtDiffuse l = Except.ok v) c.layers rts) :
    ∃ c', getFluxesCanopyDif c = Except.ok c' ∧
      c'.layers.map difProj =
        specDifNorm 1 (specDifCombine c.lower_boundary_r rts).2 := by
  refine ⟨_, by rw [getFluxesCanopyDif, difUp_eq c.lower_boundary_r h]; rfl, ?_⟩
  have hlen : c.layers.length = (specDifCombine c.lower_boundary_r rts).2.length := by
    rw [specDifCombine_length, h.length_eq]
  simp only [difAbs_proj, difNorm_proj, map_difProj_zipWith _ _ hlen]

/-- Example single-layer canopy used to instantiate stack-level
theorems at a concrete input. -/
def exCanopy : layeredCanopy where
  mu := 1
  lower_boundary_r := 1/10
  propDif := 0
  layers := [exLayer]

/-- Witness for C1 at the concrete single-layer canopy `exCanopy`. -/
theorem diffuse_pass_spec_witness :
    ∃ rts, List.Forall₂ (fun l v => rtDiffuse l = Except.ok v) exCanopy.layers rts ∧
      ∃ c', getFluxesCanopyDif exCanopy = Except.ok c' ∧
        c'.layers.map difProj =
          specDifNorm 1 (specDifCombine exCanopy.lower_boundary_r rts).2 := by
  obtain ⟨v, hv⟩ := rtDiffuse_ok_of_supported exLayer (Or.inr rfl)
  exact ⟨[v], List.Forall₂.cons hv List.Forall₂.nil,
    diffuse_pass_spec exCanopy [v] (List.Forall₂.cons hv List.Forall₂.nil)⟩

/-- Projection of the four per-layer direct-pass flux fields written by
the bottom-up loop. -/
def dirProj4 (l : canopyLayer) : ℝ × ℝ × ℝ × ℝ :=
  (l.Iup_dir_u, l.Iup_dir_c, l.Idn_dir_u, l.Idn_dir_c)

/-- Written from the spec (C3): bottom-up combination of the uncollided
pair `(Ru,Tu)` and the collided pair `(Rc,Tc)`, with `U` the layer's
uncollided direct transmission, using the diffuse multiple-reflection
term `Z = Rc_last*Rc` as the denominator for both streams:
`RuNew = Ru + U*Ru_last*Tc*(1+Z/(1-Z)) + (Tu-U)*Rc_last*Tc*(1+Z/(1-Z))`,
`TuNew = U + U*Ru_last*Rc*(1+Z/(1-Z)) + (Tu-U)*(1+Z/(1-Z))`,
`RcNew = Rc + Tc*Rc_last*Tc*(1+Z/(1-Z))`, `TcNew = Tc*(1+Z/(1-Z))`.
Each list entry is `((Ru,Tu),(Rc,Tc),U)`, top-to-bottom; both
accumulators start from `lower_boundary_r`. -/
def specDirCombine (lbr : ℝ) :
    List ((ℝ × ℝ) × (ℝ × ℝ) × ℝ) → ℝ × ℝ × List (ℝ × ℝ × ℝ × ℝ)
  | [] => (lbr, lbr, [])
  | ((Ru, Tu), (Rc, Tc), U) :: rest =>
      let p := specDirCombine lbr rest
      let Ru_last := p.1
      let Rc_last := p.2.1
      let Z := Rc_last * Rc
      let RuNew := Ru + U * Ru_last * Tc * (1 + Z / (1 - Z)) +
        (Tu - U) * Rc_last * Tc * (1 + Z / (1 - Z))
      let TuNew := U + U * Ru_last * Rc * (1 + Z / (1 - Z)) +
        (Tu - U) * (1 + Z / (1 - Z))
      let RcNew := Rc + Tc * Rc_last * Tc * (1 + Z / (1 - Z))
      let TcNew := Tc * (1 + Z / (1 - Z))
      (RuNew, RcNew, (RuNew, RcNew, TuNew, TcNew) :: p.2.2)

/-- Per-layer seeding relation for the direct pass: the entry
`((Ru,Tu),(Rc,Tc),U)` holds this layer's `rtDirect`, `rtDiffuse` and
`tUncollidedDirect` results. -/
def dirSeed (l : canopyLayer) (t : (ℝ × ℝ) × (ℝ × ℝ) × ℝ) : Prop :=
  rtDirect l = Except.ok t.1 ∧ rtDiffuse l = Except.ok t.2.1 ∧
    tUncollidedDirect l = t.2.2

lemma dirUp_eq (lbr : ℝ) {ls : List canopyLayer}
    {trips : List ((ℝ × ℝ) × (ℝ × ℝ) × ℝ)}
    (h : List.Forall₂ dirSeed ls trips) :
    dirUp lbr ls = Except.ok ((specDirCombine lbr trips).1,
      (specDirCombine lbr trips).2.1,
      List.zipWith (fun l (q : ℝ × ℝ × ℝ × ℝ) =>
        { l with Iup_dir_u := q.1, Iup_dir_c := q.2.1,
                 Idn_dir_u := q.2.2.1, Idn_dir_c := q.2.2.2 })
        ls (specDirCombine lbr trips).2.2) := by
  induction h with
  | nil => rfl
  | @cons l t ls2 trips2 hl hrest ih =>
      obtain ⟨⟨Ru, Tu⟩, ⟨Rc, Tc⟩, U⟩ := t
      obtain ⟨h1, h2, h3⟩ := hl
      simp only [dirUp, ih, h1, h2, h3, specDirCombine, List.zipWith]
      rfl

lemma specDirCombine_length (lbr : ℝ) :
    ∀ trips : List ((ℝ × ℝ) × (ℝ × ℝ) × ℝ),
      (specDirCombine lbr trips).2.2.length = trips.length := by
  intro trips
  induction trips with
  | nil => rfl
  | cons t rest ih =>
      obtain ⟨⟨Ru, Tu⟩, ⟨Rc, Tc⟩, U⟩ := t
      simp only [specDirCombine, List.length_cons, ih]

lemma map_dirProj4_zipWith :
    ∀ (ls : List canopyLayer) (ps : List (ℝ × ℝ × ℝ × ℝ)), ls.length = ps.length →
      (List.zipWith (fun l (q : ℝ × ℝ × ℝ × ℝ) =>
        { l with Iup_dir_u := q.1, Iup_dir_c := q.2.1,
                 Idn_dir_u := q.2.2.1, Idn_dir_c := q.2.2.2 }) ls ps).map dirProj4
        = ps := by
  intro ls
  induction ls with
  | nil => intro ps h; cases ps <;> simp_all
  | cons l rest ih =>
      intro ps h
      cases ps with
      | nil => simp at h
      | cons p ps2 =>
          simp only [List.zipWith, List.map_cons, dirProj4]
          exact congrArg (fun t => _ :: t) (ih ps2 (by simpa using h))

/-- Claim C3: the bottom-up loop of the direct pass combines the
uncollided pair seeded from `rtDirect`/`tUncollidedDirect` and the
collided pair seeded from `rtDiffuse` exactly by the spec's adding
formulas with the shared diffuse term `Z = Rc_last*Rc`
(`specDirCombine`), writing the four per-layer fields
`Iup_dir_u`, `Iup_dir_c`, `Idn_dir_u`, `Idn_dir_c`. -/
theorem direct_pass_combine_spec (c : layeredCanopy)
    (trips : List ((ℝ × ℝ) × (ℝ × ℝ) × ℝ))
    (h : List.Forall₂ dirSeed c.layers trips) :
    ∃ out, dirUp c.lower_boundary_r c.layers =
        Except.ok ((specDirCombine c.lower_boundary_r trips).1,
          (specDirCombine c.lower_boundary_r trips).2.1, out) ∧
      out.map dirProj4 = (specDirCombine c.lower_boundary_r trips).2.2 := by
  refine ⟨_, dirUp_eq c.lower_boundary_r h, ?_⟩
  exact map_dirProj4_zipWith _ _ (by rw [specDirCombine_length, h.length_eq])

/-- Witness for C3 at the concrete single-layer canopy `exCanopy`. -/
theorem direct_pass_combine_spec_witness :
    ∃ trips, List.Forall₂ dirSeed exCanopy.layers trips ∧
      ∃ out, dirUp exCanopy.lower_boundary_r exCanopy.layers =
          Except.ok ((specDirCombine exCanopy.lower_boundary_r trips).1,
            (specDirCombine exCanopy.lower_boundary_r trips).2.1, out) ∧
        out.map dirProj4 = (specDirCombine exCanopy.lower_boundary_r trips).2.2 := by
  obtain ⟨u, hu⟩ := rtDirect_ok_of_supported exLayer (Or.inr rfl)
  obtain ⟨v, hv⟩ := rtDiffuse_ok_of_supported exLayer (Or.inr rfl)
  refine ⟨[(u, v, tUncollidedDirect exLayer)],
    List.Forall₂.cons ⟨hu, hv, rfl⟩ List.Forall₂.nil, ?_⟩
  exact direct_pass_combine_spec exCanopy _
    (List.Forall₂.cons ⟨hu, hv, rfl⟩ List.Forall₂.nil)

/-- Written from the spec (C4): the downward flux arriving at layer `i`
from above — `1` for the top layer, the layer above's downward flux
otherwise. -/
def specIdnAbove (idn : canopyLayer → ℝ) (ls : List canopyLayer) (i : ℕ) : ℝ :=
  if i = 0 then 1 else ((ls.get? (i - 1)).map idn).getD 0

/-- Written from the spec (C4): the upward flux arriving at layer `i`
from below — this layer's downward flux reflected by the lower boundary
for the bottom layer, the layer below's upward flux otherwise. -/
def specIupBelow (iup idn : canopyLayer → ℝ) (lbr : ℝ)
    (ls : List canopyLayer) (i : ℕ) : ℝ :=
  if i = ls.length - 1 then ((ls.get? i).map idn).getD 0 * lbr
  else ((ls.get? (i + 1)).map iup).getD 0

lemma difAbs_length : ∀ (ls : List canopyLayer) (lbr iA : ℝ),
    (difAbs lbr iA ls).length = ls.length := by
  intro ls
  induction ls with
  | nil => intro lbr iA; rfl
  | cons x rest ih =>
      intro lbr iA
      cases rest with
      | nil => rfl
      | cons y rest2 => simp only [difAbs, List.length_cons, ih]

lemma difAbs_cons_head (lbr iA : ℝ) (y : canopyLayer) (rest : List canopyLayer) :
    ∃ a tail, difAbs lbr iA (y :: rest) = { y with Iab_dif := a } :: tail := by
  cases rest with
  | nil => exact ⟨_, _, rfl⟩
  | cons z rest2 => exact ⟨_, _, rfl⟩

lemma difAbs_closure : ∀ (ls : List canopyLayer) (lbr iA : ℝ) (i : ℕ)
    (l : canopyLayer), (difAbs lbr iA ls).get? i = some l →
    l.Iab_dif = |(if i = (difAbs lbr iA ls).length - 1 then l.Idn_dif * lbr
        else (((difAbs lbr iA ls).get? (i + 1)).map fun x => x.Iup_dif).getD 0) -
      l.Iup_dif +
      (if i = 0 then iA
        else (((difAbs lbr iA ls).get? (i - 1)).map fun x => x.Idn_dif).getD 0) -
      l.Idn_dif| := by
  intro ls
  induction ls with
  | nil => intro lbr iA i l h; simp [difAbs] at h
  | cons x rest ih =>
      intro lbr iA i l h
      cases rest with
      | nil =>
          cases i with
          | zero =>
              simp only [difAbs, List.get?] at h
              obtain rfl := Option.some_injective _ h
              simp [difAbs]
          | succ j => simp [difAbs, List.get?] at h
      | cons y rest2 =>
          have hlen2 : (difAbs lbr x.Idn_dif (y :: rest2)).length = rest2.length + 1 := by
            rw [difAbs_length]; rfl
          cases i with
          | zero =>
              simp only [difAbs, List.get?] at h
              obtain rfl := Option.some_injective _ h
              obtain ⟨a, tail, htl⟩ := difAbs_cons_head lbr x.Idn_dif y rest2
              have hne : (0 : ℕ) ≠ (difAbs lbr iA (x :: y :: rest2)).length - 1 := by
                simp only [difAbs, List.length_cons, hlen2]
                omega
              simp only [difAbs, List.length_cons, hlen2, List.get?, htl,
                if_neg hne, if_pos rfl]
              rfl
          | succ j =>
              simp only [difAbs, List.get?] at h
              have key := ih lbr x.Idn_dif j l h
              have hco : difAbs lbr iA (x :: y :: rest2) =
                  { x with Iab_dif := |y.Iup_dif - x.Iup_dif + iA - x.Idn_dif| } ::
                    difAbs lbr x.Idn_dif (y :: rest2) := rfl
              rw [key, hco]
              simp only [List.get?_cons_succ, List.length_cons, hlen2,
                Nat.add_sub_cancel, Nat.succ_ne_zero, if_false, add_left_inj]
              cases j with
              | zero => simp
              | succ m =>
                  simp only [Nat.succ_ne_zero, if_false, Nat.succ_sub_one,
                    List.get?_cons_succ]

lemma dirAbs_length : ∀ (ls : List canopyLayer) (lbr iA : ℝ),
    (dirAbs lbr iA ls).length = ls.length := by
  intro ls
  induction ls with
  | nil => intro lbr iA; rfl
  | cons x rest ih =>
      intro lbr iA
      cases rest with
      | nil => rfl
      | cons y rest2 => simp only [dirAbs, List.length_cons, ih]

lemma dirAbs_cons_head (lbr iA : ℝ) (y : canopyLayer) (rest : List canopyLayer) :
    ∃ a tail, dirAbs lbr iA (y :: rest) = { y with Iab_dir := a } :: tail := by
  cases rest with
  | nil => exact ⟨_, _, rfl⟩
  | cons z rest2 => exact ⟨_, _, rfl⟩

lemma dirAbs_closure : ∀ (ls : List canopyLayer) (lbr iA : ℝ) (i : ℕ)
    (l : canopyLayer), (dirAbs lbr iA ls).get? i = some l →
    l.Iab_dir = |(if i = (dirAbs lbr iA ls).length - 1 then l.Idn_dir * lbr
        else (((dirAbs lbr iA ls).get? (i + 1)).map fun x => x.Iup_dir).getD 0) -
      l.Iup_dir +
      (if i = 0 then iA
        else (((dirAbs lbr iA ls).get? (i - 1)).map fun x => x.Idn_dir).getD 0) -
      l.Idn_dir| := by
  intro ls
  induction ls with
  | nil => intro lbr iA i l h; simp [dirAbs] at h
  | cons x rest ih =>
      intro lbr iA i l h
      cases rest with
      | nil =>
          cases i with
          | zero =>
              simp only [dirAbs, List.get?] at h
              obtain rfl := Option.some_injective _ h
              simp [dirAbs]
          | succ j => simp [dirAbs, List.get?] at h
      | cons y rest2 =>
          have hlen2 : (dirAbs lbr x.Idn_dir (y :: rest2)).length = rest2.length + 1 := by
            rw [dirAbs_length]; rfl
          cases i with
          | zero =>
              simp only [dirAbs, List.get?] at h
              obtain rfl := Option.some_injective _ h
              obtain ⟨a, tail, htl⟩ := dirAbs_cons_head lbr x.Idn_dir y rest2
              have hne : (0 : ℕ) ≠ (dirAbs lbr iA (x :: y :: rest2)).length - 1 := by
                simp only [dirAbs, List.length_cons, hlen2]
                omega
              simp only [dirAbs, List.length_cons, hlen2, List.get?, htl,
                if_neg hne, if_pos rfl]
              rfl
          | succ j =>
              simp only [dirAbs, List.get?] at h
              have key := ih lbr x.Idn_dir j l h
              have hco : dirAbs lbr iA (x :: y :: rest2) =
                  { x with Iab_dir := |y.Iup_dir - x.Iup_dir + iA - x.Idn_dir| } ::
                    dirAbs lbr x.Idn_dir (y :: rest2) := rfl
              rw [key, hco]
              simp only [List.get?_cons_succ, List.length_cons, hlen2,
                Nat.add_sub_cancel, Nat.succ_ne_zero, if_false, add_left_inj]
              cases j with
              | zero => simp
              | succ m =>
                  simp only [Nat.succ_ne_zero, if_false, Nat.succ_sub_one,
                    List.get?_cons_succ]

lemma getFluxesCanopyDif_shape {c c' : layeredCanopy}
    (h : getFluxesCanopyDif c = Except.ok c') :
    ∃ r ls, difUp c.lower_boundary_r c.layers = Except.ok (r, ls) ∧
      c' = { c with layers := difAbs c.lower_boundary_r 1 (difNorm 1 ls) } := by
  rcases hup : difUp c.lower_boundary_r c.layers with e | ⟨r, ls⟩
  · rw [getFluxesCanopyDif, hup] at h
    exact Except.noConfusion h
  · rw [getFluxesCanopyDif, hup] at h
    exact ⟨r, ls, rfl, ((Except.ok.injEq _ _).mp h).symm⟩

lemma getFluxesCanopyDir_shape {c c' : layeredCanopy}
    (h : getFluxesCanopyDir c = Except.ok c') :
    ∃ ru rc ls, dirUp c.lower_boundary_r c.layers = Except.ok (ru, rc, ls) ∧
      c' = { c with layers := dirAbs c.lower_boundary_r 1 (dirNorm 1 0 ls) } := by
  rcases hup : dirUp c.lower_boundary_r c.layers with e | ⟨ru, rc, ls⟩
  · rw [getFluxesCanopyDir, hup] at h
    exact Except.noConfusion h
  · rw [getFluxesCanopyDir, hup] at h
    exact ⟨ru, rc, ls, rfl, ((Except.ok.injEq _ _).mp h).symm⟩

/-- Claim C4: after a flux pass, each layer's absorption equals the
absolute energy-balance residual `|Iup_below - Iup + Idn_above - Idn|`,
with `Idn_above = 1` at the top and the layer above's `Idn` otherwise,
and `Iup_below = Idn*lower_boundary_r` at the bottom and the layer
below's `Iup` otherwise; the same closure holds for the diffuse fields
and for the direct fields. -/
theorem absorption_closure (c cdif cdir : layeredCanopy)
    (h1 : getFluxesCanopyDif c = Except.ok cdif)
    (h2 : getFluxesCanopyDir c = Except.ok cdir) :
    (∀ i l, cdif.layers.get? i = some l →
      l.Iab_dif = |specIupBelow (fun x => x.Iup_dif) (fun x => x.Idn_dif)
          c.lower_boundary_r cdif.layers i - l.Iup_dif +
        specIdnAbove (fun x => x.Idn_dif) cdif.layers i - l.Idn_dif|) ∧
    (∀ i l, cdir.layers.get? i = some l →
      l.Iab_dir = |specIupBelow (fun x => x.Iup_dir) (fun x => x.Idn_dir)
          c.lower_boundary_r cdir.layers i - l.Iup_dir +
        specIdnAbove (fun x => x.Idn_dir) cdir.layers i - l.Idn_dir|) := by
  constructor
  · obtain ⟨r, ls, hup, rfl⟩ := getFluxesCanopyDif_shape h1
    intro i l hget
    have hcl := difAbs_closure (difNorm 1 ls) c.lower_boundary_r 1 i l hget
    rw [hcl]
    simp only [specIupBelow, specIdnAbove, hget, Option.map_some', Option.getD_some]
  · obtain ⟨ru, rc, ls, hup, rfl⟩ := getFluxesCanopyDir_shape h2
    intro i l hget
    have hcl := dirAbs_closure (dirNorm 1 0 ls) c.lower_boundary_r 1 i l hget
    rw [hcl]
    simp only [specIupBelow, specIdnAbove, hget, Option.map_some', Option.getD_some]

/-- Input parameters of a layer (set by the user or supplied by the
geometry collaborator), as opposed to the flux fields written by the
canopy passes. -/
structure layerParams where
  mu : ℝ
  leaf_r : ℝ
  leaf_t : ℝ
  lai : ℝ
  gval : ℝ
  zval : ℝ
  bDif : ℝ
  bDir : ℝ
  muBarVal : ℝ
  gsDif : String
  gsDir : String

/-- Parameter part of a layer record. -/
def params (l : canopyLayer) : layerParams :=
  ⟨l.mu, l.leaf_r, l.leaf_t, l.lai, l.gval, l.zval, l.bDif, l.bDir,
   l.muBarVal, l.gamma_scaling_diffuse, l.gamma_scaling_direct⟩

lemma getGamma_congr {a b : canopyLayer} (h : params a = params b)
    (m : String) : getGamma a m = getGamma b m := by
  have h1 := congrArg layerParams.gval h
  have h2 := congrArg layerParams.muBarVal h
  have h3 := congrArg layerParams.bDif h
  have h4 := congrArg layerParams.bDir h
  have h5 := congrArg layerParams.leaf_r h
  have h6 := congrArg layerParams.leaf_t h
  simp only [params] at h1 h2 h3 h4 h5 h6
  simp only [getGamma, canopyLayer.w, h1, h2, h3, h4, h5, h6]

lemma rtDiffuse_congr {a b : canopyLayer} (h : params a = params b) :
    rtDiffuse a = rtDiffuse b := by
  have hg := getGamma_congr h a.gamma_scaling_diffuse
  have hm := congrArg layerParams.gsDif h
  have h1 := congrArg layerParams.lai h
  have h2 := congrArg layerParams.gval h
  have h3 := congrArg layerParams.zval h
  simp only [params] at hm h1 h2 h3
  rw [hm] at hg
  simp only [rtDiffuse, hm, hg, h1, h2, h3]

lemma rtDirect_congr {a b : canopyLayer} (h : params a = params b) :
    rtDirect a = rtDirect b := by
  have hg := getGamma_congr h a.gamma_scaling_direct
  have hm := congrArg layerParams.gsDir h
  have h1 := congrArg layerParams.lai h
  have h2 := congrArg layerParams.gval h
  have h3 := congrArg layerParams.zval h
  have h4 := congrArg layerParams.mu h
  have h5 := congrArg layerParams.leaf_r h
  have h6 := congrArg layerParams.leaf_t h
  simp only [params] at hm h1 h2 h3 h4 h5 h6
  rw [hm] at hg
  simp only [rtDirect, canopyLayer.w, hm, hg, h1, h2, h3, h4, h5, h6]

lemma tUncollidedDirect_congr {a b : canopyLayer} (h : params a = params b) :
    tUncollidedDirect a = tUncollidedDirect b := by
  have h1 := congrArg layerParams.lai h
  have h2 := congrArg layerParams.gval h
  have h3 := congrArg layerParams.zval h
  have h4 := congrArg layerParams.mu h
  simp only [params] at h1 h2 h3 h4
  simp only [tUncollidedDirect, h1, h2, h3, h4]

lemma ok_bind {α β : Type} (a : α) (f : α → Except String β) :
    (Except.ok a : Except String α) >>= f = f a := rfl

lemma difUp_ok : ∀ (ls : List canopyLayer) (lbr : ℝ),
    (∀ l ∈ ls, supported l.gamma_scaling_diffuse) →
    ∃ r out, difUp lbr ls = Except.ok (r, out) := by
  intro ls
  induction ls with
  | nil => intro lbr _; exact ⟨lbr, [], rfl⟩
  | cons l rest ih =>
      intro lbr h
      obtain ⟨r, out, hr⟩ := ih lbr (fun x hx => h x (List.mem_cons_of_mem l hx))
      obtain ⟨⟨R0, T0⟩, hrt⟩ :=
        rtDiffuse_ok_of_supported l (h l (List.mem_cons_self l rest))
      exact ⟨_, _, by simp only [difUp, hr, hrt]; rfl⟩

lemma dirUp_ok : ∀ (ls : List canopyLayer) (lbr : ℝ),
    (∀ l ∈ ls, supported l.gamma_scaling_diffuse ∧
      supported l.gamma_scaling_direct) →
    ∃ ru rc out, dirUp lbr ls = Except.ok (ru, rc, out) := by
  intro ls
  induction ls with
  | nil => intro lbr _; exact ⟨lbr, lbr, [], rfl⟩
  | cons l rest ih =>
      intro lbr h
      obtain ⟨ru, rc, out, hr⟩ := ih lbr (fun x hx => h x (List.mem_cons_of_mem l hx))
      obtain ⟨⟨Ru, Tu⟩, hu⟩ :=
        rtDirect_ok_of_supported l (h l (List.mem_cons_self l rest)).2
      obtain ⟨⟨Rc, Tc⟩, hc⟩ :=
        rtDiffuse_ok_of_supported l (h l (List.mem_cons_self l rest)).1
      exact ⟨_, _, _, by simp only [dirUp, hr, hu, hc]; rfl⟩

lemma getFluxesCanopyDif_ok (c : layeredCanopy)
    (h : ∀ l ∈ c.layers, supported l.gamma_scaling_diffuse) :
    ∃ c', getFluxesCanopyDif c = Except.ok c' := by
  obtain ⟨r, out, hr⟩ := difUp_ok c.layers c.lower_boundary_r h
  exact ⟨_, by rw [getFluxesCanopyDif, hr]; rfl⟩

lemma getFluxesCanopyDir_ok (c : layeredCanopy)
    (h : ∀ l ∈ c.layers, supported l.gamma_scaling_diffuse ∧
      supported l.gamma_scaling_direct) :
    ∃ c', getFluxesCanopyDir c = Except.ok c' := by
  obtain ⟨ru, rc, out, hr⟩ := dirUp_ok c.layers c.lower_boundary_r h
  exact ⟨_, by rw [getFluxesCanopyDir, hr]; rfl⟩

lemma difUp_params : ∀ (ls : List canopyLayer) (lbr r : ℝ)
    (out : List canopyLayer), difUp lbr ls = Except.ok (r, out) →
    out.map params = ls.map params := by
  intro ls
  induction ls with
  | nil =>
      intro lbr r out h
      have hout := congrArg Prod.snd ((Except.ok.injEq _ _).mp h)
      simp only at hout
      rw [← hout]
  | cons l rest ih =>
      intro lbr r out h
      rcases hr : difUp lbr rest with e | ⟨r2, out2⟩ <;> rw [difUp, hr] at h
      · exact Except.noConfusion h
      rcases hrt : rtDiffuse l with e | ⟨R0, T0⟩ <;> rw [hrt] at h
      · exact Except.noConfusion h
      have hout := congrArg Prod.snd ((Except.ok.injEq _ _).mp h)
      simp only at hout
      rw [← hout]
      simp only [List.map_cons, ih lbr r2 out2 hr]
      rfl

lemma dirUp_params : ∀ (ls : List canopyLayer) (lbr ru rc : ℝ)
    (out : List canopyLayer), dirUp lbr ls = Except.ok (ru, rc, out) →
    out.map params = ls.map params := by
  intro ls
  induction ls with
  | nil =>
      intro lbr ru rc out h
      have hout := congrArg (fun p : ℝ × ℝ × List canopyLayer => p.2.2)
        ((Except.ok.injEq _ _).mp h)
      simp only at hout
      rw [← hout]
  | cons l rest ih =>
      intro lbr ru rc out h
      rcases hr : dirUp lbr rest with e | ⟨ru2, rc2, out2⟩ <;> rw [dirUp, hr] at h
      · exact Except.noConfusion h
      rcases hu : rtDirect l with e | ⟨Ru, Tu⟩ <;> rw [hu] at h
      · exact Except.noConfusion h
      rcases hc : rtDiffuse l with e | ⟨Rc, Tc⟩ <;> rw [hc] at h
      · exact Except.noConfusion h
      have hout := congrArg (fun p : ℝ × ℝ × List canopyLayer => p.2.2)
        ((Except.ok.injEq _ _).mp h)
      simp only at hout
      rw [← hout]
      simp only [List.map_cons, ih lbr ru2 rc2 out2 hr]
      rfl

lemma difNorm_params : ∀ (ls : List canopyLayer) (T : ℝ),
    (difNorm T ls).map params = ls.map params := by
  intro ls
  induction ls with
  | nil => intro T; rfl
  | cons l rest ih =>
      intro T
      simp only [difNorm, List.map_cons, ih]
      rfl

lemma dirNorm_params : ∀ (ls : List canopyLayer) (Tu Tc : ℝ),
    (dirNorm Tu Tc ls).map params = ls.map params := by
  intro ls
  induction ls with
  | nil => intro Tu Tc; rfl
  | cons l rest ih =>
      intro Tu Tc
      simp only [dirNorm, List.map_cons, ih]
      rfl

lemma difAbs_params : ∀ (ls : List canopyLayer) (lbr iA : ℝ),
    (difAbs lbr iA ls).map params = ls.map params := by
  intro ls
  induction ls with
  | nil => intro lbr iA; rfl
  | cons l rest ih =>
      intro lbr iA
      cases rest with
      | nil => rfl
      | cons y rest2 =>
          simp only [difAbs, List.map_cons] at ih ⊢
          rw [ih]
          rfl

lemma dirAbs_params : ∀ (ls : List canopyLayer) (lbr iA : ℝ),
    (dirAbs lbr iA ls).map params = ls.map params := by
  intro ls
  induction ls with
  | nil => intro lbr iA; rfl
  | cons l rest ih =>
      intro lbr iA
      cases rest with
      | nil => rfl
      | cons y rest2 =>
          simp only [dirAbs, List.map_cons] at ih ⊢
          rw [ih]
          rfl

lemma getFluxesCanopyDir_params {c c' : layeredCanopy}
    (h : getFluxesCanopyDir c = Except.ok c') :
    c'.layers.map params = c.layers.map params := by
  obtain ⟨ru, rc, ls, hup, rfl⟩ := getFluxesCanopyDir_shape h
  show (dirAbs c.lower_boundary_r 1 (dirNorm 1 0 ls)).map params = _
  rw [dirAbs_params, dirNorm_params, dirUp_params c.layers _ _ _ ls hup]

lemma getFluxesCanopyDif_params {c c' : layeredCanopy}
    (h : getFluxesCanopyDif c = Except.ok c') :
    c'.layers.map params = c.layers.map params := by
  obtain ⟨r, ls, hup, rfl⟩ := getFluxesCanopyDif_shape h
  show (difAbs c.lower_boundary_r 1 (difNorm 1 ls)).map params = _
  rw [difAbs_params, difNorm_params, difUp_params c.layers _ _ ls hup]

lemma supported_transfer {ls ms : List canopyLayer}
    (hmap : ms.map params = ls.map params)
    (h : ∀ l ∈ ls, supported l.gamma_scaling_diffuse ∧
      supported l.gamma_scaling_direct) :
    ∀ m ∈ ms, supported m.gamma_scaling_diffuse ∧
      supported m.gamma_scaling_direct := by
  intro m hm
  have hmem : params m ∈ ms.map params := List.mem_map_of_mem params hm
  rw [hmap] at hmem
  obtain ⟨l, hl, he⟩ := List.mem_map.mp hmem
  have h1 : m.gamma_scaling_diffuse = l.gamma_scaling_diffuse :=
    congrArg layerParams.gsDif he.symm
  have h2 : m.gamma_scaling_direct = l.gamma_scaling_direct :=
    congrArg layerParams.gsDir he.symm
  rw [h1, h2]
  exact h l hl

/-- Success of the whole computation when every layer's two scaling
policies are supported strings. -/
lemma getFluxes_ok (c : layeredCanopy)
    (h : ∀ l ∈ c.layers, supported l.gamma_scaling_diffuse ∧
      supported l.gamma_scaling_direct) :
    ∃ c', getFluxes c = Except.ok c' := by
  obtain ⟨c1, h1⟩ := getFluxesCanopyDir_ok c h
  have hp := getFluxesCanopyDir_params h1
  obtain ⟨c2, h2⟩ := getFluxesCanopyDif_ok c1
    (fun l hl => (supported_transfer hp h l hl).1)
  exact ⟨_, by rw [getFluxes, h1, ok_bind, h2, ok_bind]⟩

/-- Witness for C4 at the concrete single-layer canopy `exCanopy`. -/
theorem absorption_closure_witness :
    ∃ cdif cdir, getFluxesCanopyDif exCanopy = Except.ok cdif ∧
      getFluxesCanopyDir exCanopy = Except.ok cdir ∧
      ((∀ i l, cdif.layers.get? i = some l →
        l.Iab_dif = |specIupBelow (fun x => x.Iup_dif) (fun x => x.Idn_dif)
            exCanopy.lower_boundary_r cdif.layers i - l.Iup_dif +
          specIdnAbove (fun x => x.Idn_dif) cdif.layers i - l.Idn_dif|) ∧
      (∀ i l, cdir.layers.get? i = some l →
        l.Iab_dir = |specIupBelow (fun x => x.Iup_dir) (fun x => x.Idn_dir)
            exCanopy.lower_boundary_r cdir.layers i - l.Iup_dir +
          specIdnAbove (fun x => x.Idn_dir) cdir.layers i - l.Idn_dir|)) := by
  have hpol : ∀ l ∈ exCanopy.layers, supported l.gamma_scaling_diffuse ∧
      supported l.gamma_scaling_direct := by
    intro l hl
    have : l = exLayer := by simpa [exCanopy] using hl
    rw [this]
    exact ⟨Or.inr rfl, Or.inr rfl⟩
  obtain ⟨cdif, h1⟩ := getFluxesCanopyDif_ok exCanopy (fun l hl => (hpol l hl).1)
  obtain ⟨cdir, h2⟩ := getFluxesCanopyDir_ok exCanopy hpol
  exact ⟨cdif, cdir, h1, h2, absorption_closure exCanopy cdif cdir h1 h2⟩

/-- Blend update written onto every layer by `getFluxes`. -/
def blendUpd (p : ℝ) (l : canopyLayer) : canopyLayer :=
  { l with Iup := (1 - p) * l.Iup_dir + p * l.Iup_dif,
           Idn := (1 - p) * l.Idn_dir + p * l.Idn_dif,
           Iab := (1 - p) * l.Iab_dir + p * l.Iab_dif }

lemma getFluxes_def (c : layeredCanopy) :
    getFluxes c = (do
      let c1 ← getFluxesCanopyDir c
      let c2 ← getFluxesCanopyDif c1
      Except.ok { c2 with layers := c2.layers.map (blendUpd c.propDif) }) := rfl

lemma getFluxes_shape {c c' : layeredCanopy} (h : getFluxes c = Except.ok c') :
    ∃ c1 c2, getFluxesCanopyDir c = Except.ok c1 ∧
      getFluxesCanopyDif c1 = Except.ok c2 ∧
      c' = { c2 with layers := c2.layers.map (blendUpd c.propDif) } := by
  rcases h1 : getFluxesCanopyDir c with e | c1
  · rw [getFluxes_def, h1] at h
    exact Except.noConfusion h
  rcases h2 : getFluxesCanopyDif c1 with e | c2
  · rw [getFluxes_def, h1, ok_bind, h2] at h
    exact Except.noConfusion h
  rw [getFluxes_def, h1, ok_bind, h2, ok_bind] at h
  exact ⟨c1, c2, h1 ▸ rfl, h2, ((Except.ok.injEq _ _).mp h).symm⟩

/-- Claim C8: after `getFluxes`, every layer's blended fields satisfy
`Iup = (1-propDif)*Iup_dir + propDif*Iup_dif` (likewise `Idn`, `Iab`);
with `propDif = 0` they equal the direct-pass fields exactly, and with
`propDif = 1` the diffuse-pass fields exactly. -/
theorem blend_fluxes (c c' : layeredCanopy) (h : getFluxes c = Except.ok c') :
    ∀ i l, c'.layers.get? i = some l →
      (l.Iup = (1 - c.propDif) * l.Iup_dir + c.propDif * l.Iup_dif ∧
       l.Idn = (1 - c.propDif) * l.Idn_dir + c.propDif * l.Idn_dif ∧
       l.Iab = (1 - c.propDif) * l.Iab_dir + c.propDif * l.Iab_dif) ∧
      (c.propDif = 0 → l.Iup = l.Iup_dir ∧ l.Idn = l.Idn_dir ∧ l.Iab = l.Iab_dir) ∧
      (c.propDif = 1 → l.Iup = l.Iup_dif ∧ l.Idn = l.Idn_dif ∧ l.Iab = l.Iab_dif) := by
  obtain ⟨c1, c2, h1, h2, rfl⟩ := getFluxes_shape h
  intro i l hget
  have hget2 : (c2.layers.map (blendUpd c.propDif)).get? i = some l := hget
  rw [List.get?_map] at hget2
  rcases hx : c2.layers.get? i with _ | l0
  · rw [hx] at hget2
    exact Option.noConfusion hget2
  rw [hx] at hget2
  obtain rfl : blendUpd c.propDif l0 = l := by simpa using hget2
  refine ⟨⟨rfl, rfl, rfl⟩, fun hp => ⟨?_, ?_, ?_⟩, fun hp => ⟨?_, ?_, ?_⟩⟩
  · show (1 - c.propDif) * l0.Iup_dir + c.propDif * l0.Iup_dif = l0.Iup_dir
    rw [hp]; ring
  · show (1 - c.propDif) * l0.Idn_dir + c.propDif * l0.Idn_dif = l0.Idn_dir
    rw [hp]; ring
  · show (1 - c.propDif) * l0.Iab_dir + c.propDif * l0.Iab_dif = l0.Iab_dir
    rw [hp]; ring
  · show (1 - c.propDif) * l0.Iup_dir + c.propDif * l0.Iup_dif = l0.Iup_dif
    rw [hp]; ring
  · show (1 - c.propDif) * l0.Idn_dir + c.propDif * l0.Idn_dif = l0.Idn_dif
    rw [hp]; ring
  · show (1 - c.propDif) * l0.Iab_dir + c.propDif * l0.Iab_dif = l0.Iab_dif
    rw [hp]; ring

lemma exCanopy_policies : ∀ l ∈ exCanopy.layers,
    supported l.gamma_scaling_diffuse ∧ supported l.gamma_scaling_direct := by
  intro l hl
  have : l = exLayer := by simpa [exCanopy] using hl
  rw [this]
  exact ⟨Or.inr rfl, Or.inr rfl⟩

/-- Witness for C8 at the concrete single-layer canopy `exCanopy`. -/
theorem blend_fluxes_witness :
    ∃ c', getFluxes exCanopy = Except.ok c' ∧
      ∀ i l, c'.layers.get? i = some l →
        (l.Iup = (1 - exCanopy.propDif) * l.Iup_dir +
            exCanopy.propDif * l.Iup_dif ∧
         l.Idn = (1 - exCanopy.propDif) * l.Idn_dir +
            exCanopy.propDif * l.Idn_dif ∧
         l.Iab = (1 - exCanopy.propDif) * l.Iab_dir +
            exCanopy.propDif * l.Iab_dif) ∧
        (exCanopy.propDif = 0 →
          l.Iup = l.Iup_dir ∧ l.Idn = l.Idn_dir ∧ l.Iab = l.Iab_dir) ∧
        (exCanopy.propDif = 1 →
          l.Iup = l.Iup_dif ∧ l.Idn = l.Idn_dif ∧ l.Iab = l.Iab_dif) := by
  obtain ⟨c', hc⟩ := getFluxes_ok exCanopy exCanopy_policies
  exact ⟨c', hc, blend_fluxes exCanopy c' hc⟩

lemma rtDirect_error_of_unsupported (l : canopyLayer)
    (h : ¬ supported l.gamma_scaling_direct) :
    rtDirect l = Except.error
      ("Unknown gamma scaling type:" ++ l.gamma_scaling_direct) := by
  rw [rtDirect, getGamma_error_of_unsupported l h]
  rfl

lemma dirUp_ok_inv : ∀ (ls : List canopyLayer) (lbr ru rc : ℝ)
    (out : List canopyLayer), dirUp lbr ls = Except.ok (ru, rc, out) →
    ∀ l ∈ ls, (∃ v, rtDirect l = Except.ok v) ∧
      (∃ v, rtDiffuse l = Except.ok v) := by
  intro ls
  induction ls with
  | nil => intro lbr ru rc out h l hl; exact absurd hl (List.not_mem_nil l)
  | cons x rest ih =>
      intro lbr ru rc out h l hl
      rcases hr : dirUp lbr rest with e | ⟨ru2, rc2, out2⟩ <;> rw [dirUp, hr] at h
      · exact Except.noConfusion h
      rcases hu : rtDirect x with e | ⟨Ru, Tu⟩ <;> rw [hu] at h
      · exact Except.noConfusion h
      rcases hc : rtDiffuse x with e | ⟨Rc, Tc⟩ <;> rw [hc] at h
      · exact Except.noConfusion h
      rcases List.mem_cons.mp hl with rfl | hl2
      · exact ⟨⟨_, hu⟩, ⟨_, hc⟩⟩
      · exact ih lbr ru2 rc2 out2 hr l hl2

/-- Claim C10: for every value of `propDif` (including the endpoints),
`getFluxes` unconditionally runs the direct pass and then the diffuse
pass, blending only afterwards; in particular a successful run requires
`rtDirect` and `rtDiffuse` of every layer to succeed, and a layer with
an unsupported direct scaling policy makes `getFluxes` fail even when
`propDif = 1`. -/
theorem getFluxes_runs_both_passes (c : layeredCanopy) :
    (∀ c', getFluxes c = Except.ok c' →
      (∀ l ∈ c.layers, (∃ v, rtDirect l = Except.ok v) ∧
        (∃ v, rtDiffuse l = Except.ok v)) ∧
      ∃ c1 c2, getFluxesCanopyDir c = Except.ok c1 ∧
        getFluxesCanopyDif c1 = Except.ok c2 ∧
        c' = { c2 with layers := c2.layers.map (blendUpd c.propDif) }) ∧
    ((∃ l ∈ c.layers, ¬ supported l.gamma_scaling_direct) →
      ∀ c', getFluxes c ≠ Except.ok c') := by
  have main : ∀ c', getFluxes c = Except.ok c' →
      (∀ l ∈ c.layers, (∃ v, rtDirect l = Except.ok v) ∧
        (∃ v, rtDiffuse l = Except.ok v)) ∧
      ∃ c1 c2, getFluxesCanopyDir c = Except.ok c1 ∧
        getFluxesCanopyDif c1 = Except.ok c2 ∧
        c' = { c2 with layers := c2.layers.map (blendUpd c.propDif) } := by
    intro c' h
    obtain ⟨c1, c2, h1, h2, hshape⟩ := getFluxes_shape h
    obtain ⟨ru, rc, ls, hup, -⟩ := getFluxesCanopyDir_shape h1
    exact ⟨dirUp_ok_inv c.layers _ ru rc ls hup, c1, c2, h1, h2, hshape⟩
  refine ⟨main, fun ⟨l, hl, hbad⟩ c' h => ?_⟩
  obtain ⟨v, hv⟩ := ((main c' h).1 l hl).1
  rw [rtDirect_error_of_unsupported l hbad] at hv
  exact Except.noConfusion hv

/-- Witness for C10 at the concrete single-layer canopy `exCanopy`
(whose `propDif` hypothesis-free instantiation discharges the inner
implications through an actual successful run). -/
theorem getFluxes_runs_both_passes_witness :
    ∃ c', getFluxes exCanopy = Except.ok c' ∧
      (∀ l ∈ exCanopy.layers, (∃ v, rtDirect l = Except.ok v) ∧
        (∃ v, rtDiffuse l = Except.ok v)) ∧
      ∃ c1 c2, getFluxesCanopyDir exCanopy = Except.ok c1 ∧
        getFluxesCanopyDif c1 = Except.ok c2 ∧
        c' = { c2 with layers :=
          c2.layers.map (blendUpd exCanopy.propDif) } := by
  obtain ⟨c', hc⟩ := getFluxes_ok exCanopy exCanopy_policies
  exact ⟨c', hc, (getFluxes_runs_both_passes exCanopy).1 c' hc⟩

/-- Two layer records with the same parameters (flux fields may
differ). -/
def rel0 (a b : canopyLayer) : Prop := params a = params b

/-- After the bottom-up direct loop: parameters and the four written
direct fields agree. -/
def relDir4 (a b : canopyLayer) : Prop := rel0 a b ∧ dirProj4 a = dirProj4 b

/-- After the direct normalization loop. -/
def relDirT (a b : canopyLayer) : Prop :=
  relDir4 a b ∧ a.Iup_dir = b.Iup_dir ∧ a.Idn_dir = b.Idn_dir

/-- After the direct absorption loop. -/
def relDirA (a b : canopyLayer) : Prop := relDirT a b ∧ a.Iab_dir = b.Iab_dir

/-- After the bottom-up diffuse loop. -/
def relDif2 (a b : canopyLayer) : Prop := relDirA a b ∧ difProj a = difProj b

/-- After the diffuse absorption loop. -/
def relDifA (a b : canopyLayer) : Prop := relDif2 a b ∧ a.Iab_dif = b.Iab_dif

lemma dirUp_cons (lbr : ℝ) (l : canopyLayer) (rest : List canopyLayer)
    {a1 a2 : ℝ} {aout : List canopyLayer}
    (h1 : dirUp lbr rest = Except.ok (a1, a2, aout))
    {Ru Tu Rc Tc : ℝ}
    (h2 : rtDirect l = Except.ok (Ru, Tu))
    (h3 : rtDiffuse l = Except.ok (Rc, Tc)) :
    dirUp lbr (l :: rest) = Except.ok
      (Ru + tUncollidedDirect l * a1 * Tc * (1 + a2 * Rc / (1 - a2 * Rc)) +
         (Tu - tUncollidedDirect l) * a2 * Tc * (1 + a2 * Rc / (1 - a2 * Rc)),
       Rc + Tc * a2 * Tc * (1 + a2 * Rc / (1 - a2 * Rc)),
       { l with
         Iup_dir_u := Ru +
           tUncollidedDirect l * a1 * Tc * (1 + a2 * Rc / (1 - a2 * Rc)) +
           (Tu - tUncollidedDirect l) * a2 * Tc * (1 + a2 * Rc / (1 - a2 * Rc)),
         Iup_dir_c := Rc + Tc * a2 * Tc * (1 + a2 * Rc / (1 - a2 * Rc)),
         Idn_dir_u := tUncollidedDirect l +
           tUncollidedDirect l * a1 * Rc * (1 + a2 * Rc / (1 - a2 * Rc)) +
           (Tu - tUncollidedDirect l) * (1 + a2 * Rc / (1 - a2 * Rc)),
         Idn_dir_c := Tc * (1 + a2 * Rc / (1 - a2 * Rc)) } :: aout) := by
  rw [dirUp, h1, h2, h3]
  rfl

lemma dirUp_congr : ∀ {ls ms : List canopyLayer}
    (h : List.Forall₂ rel0 ls ms) (lbr ru rc : ℝ) (out : List canopyLayer),
    dirUp lbr ls = Except.ok (ru, rc, out) →
    ∃ out2, dirUp lbr ms = Except.ok (ru, rc, out2) ∧
      List.Forall₂ relDir4 out out2 := by
  intro ls ms h
  induction h with
  | nil =>
      intro lbr ru rc out hup
      have h' := (Except.ok.injEq _ _).mp hup
      rw [Prod.ext_iff, Prod.ext_iff] at h'
      simp only at h'
      obtain ⟨rfl, rfl, rfl⟩ := h'
      exact ⟨[], rfl, List.Forall₂.nil⟩
  | cons hab hrest ih =>
      rename_i a b as bs
      intro lbr ru rc out hup
      rcases hr : dirUp lbr as with e | ⟨ru2, rc2, out2⟩
      · rw [dirUp, hr] at hup
        exact Except.noConfusion hup
      rcases hu : rtDirect a with e | ⟨Ru, Tu⟩
      · rw [dirUp, hr, hu] at hup
        exact Except.noConfusion hup
      rcases hc : rtDiffuse a with e | ⟨Rc, Tc⟩
      · rw [dirUp, hr, hu, hc] at hup
        exact Except.noConfusion hup
      rw [dirUp_cons lbr a as hr hu hc] at hup
      have h' := (Except.ok.injEq _ _).mp hup
      rw [Prod.ext_iff, Prod.ext_iff] at h'
      simp only at h'
      obtain ⟨e1, e2, e3⟩ := h'
      have hub : rtDirect b = Except.ok (Ru, Tu) := by
        rw [← rtDirect_congr hab]; exact hu
      have hcb : rtDiffuse b = Except.ok (Rc, Tc) := by
        rw [← rtDiffuse_congr hab]; exact hc
      have htu : tUncollidedDirect b = tUncollidedDirect a :=
        (tUncollidedDirect_congr hab).symm
      obtain ⟨out2b, hms, hrel⟩ := ih lbr ru2 rc2 out2 hr
      have hB := dirUp_cons lbr b bs hms hub hcb
      rw [htu] at hB
      rw [← e1, ← e2, ← e3]
      exact ⟨_, hB, List.Forall₂.cons ⟨hab, rfl⟩ hrel⟩

lemma dirNorm_cons (Tu Tc : ℝ) (l : canopyLayer) (rest : List canopyLayer) :
    dirNorm Tu Tc (l :: rest) =
      { l with Iup_dir_u := l.Iup_dir_u * Tu, Idn_dir_u := l.Idn_dir_u * Tu,
               Iup_dir_c := l.Iup_dir_c * Tc, Idn_dir_c := l.Idn_dir_c * Tc,
               Iup_dir := l.Iup_dir_c * Tc + l.Iup_dir_u * Tu,
               Idn_dir := l.Idn_dir_c * Tc + l.Idn_dir_u * Tu } ::
        dirNorm (Tu * tUncollidedDirect l)
          (l.Idn_dir_c * Tc + (l.Idn_dir_u * Tu - Tu * tUncollidedDirect l))
          rest := rfl

lemma dirNorm_congr : ∀ {ls ms : List canopyLayer}
    (h : List.Forall₂ relDir4 ls ms) (Tu Tc : ℝ),
    List.Forall₂ relDirT (dirNorm Tu Tc ls) (dirNorm Tu Tc ms) := by
  intro ls ms h
  induction h with
  | nil => intro Tu Tc; exact List.Forall₂.nil
  | cons hab hrest ih =>
      rename_i a b as bs
      intro Tu Tc
      obtain ⟨h0, h4⟩ := hab
      have e1 : a.Iup_dir_u = b.Iup_dir_u := congrArg (fun q => q.1) h4
      have e2 : a.Iup_dir_c = b.Iup_dir_c :=
        congrArg (fun q : ℝ × ℝ × ℝ × ℝ => q.2.1) h4
      have e3 : a.Idn_dir_u = b.Idn_dir_u :=
        congrArg (fun q : ℝ × ℝ × ℝ × ℝ => q.2.2.1) h4
      have e4 : a.Idn_dir_c = b.Idn_dir_c :=
        congrArg (fun q : ℝ × ℝ × ℝ × ℝ => q.2.2.2) h4
      have htu : tUncollidedDirect a = tUncollidedDirect b :=
        tUncollidedDirect_congr h0
      rw [dirNorm_cons, dirNorm_cons]
      refine List.Forall₂.cons ⟨⟨h0, ?_⟩, ?_, ?_⟩ ?_
      · show (a.Iup_dir_u * Tu, a.Iup_dir_c * Tc, a.Idn_dir_u * Tu,
            a.Idn_dir_c * Tc) =
          (b.Iup_dir_u * Tu, b.Iup_dir_c * Tc, b.Idn_dir_u * Tu,
            b.Idn_dir_c * Tc)
        rw [e1, e2, e3, e4]
      · show a.Iup_dir_c * Tc + a.Iup_dir_u * Tu =
          b.Iup_dir_c * Tc + b.Iup_dir_u * Tu
        rw [e1, e2]
      · show a.Idn_dir_c * Tc + a.Idn_dir_u * Tu =
          b.Idn_dir_c * Tc + b.Idn_dir_u * Tu
        rw [e3, e4]
      · rw [htu, e3, e4]
        exact ih _ _

lemma dirAbs_congr : ∀ {ls ms : List canopyLayer}
    (h : List.Forall₂ relDirT ls ms) (lbr iA : ℝ),
    List.Forall₂ relDirA (dirAbs lbr iA ls) (dirAbs lbr iA ms) := by
  intro ls ms h
  induction h with
  | nil => intro lbr iA; exact List.Forall₂.nil
  | cons hab hrest ih =>
      rename_i a b as bs
      intro lbr iA
      obtain ⟨hab4, haup, hadn⟩ := hab
      cases hrest with
      | nil =>
          refine List.Forall₂.cons ⟨⟨hab4, haup, hadn⟩, ?_⟩ List.Forall₂.nil
          show |a.Idn_dir * lbr - a.Iup_dir + iA - a.Idn_dir| =
            |b.Idn_dir * lbr - b.Iup_dir + iA - b.Idn_dir|
          rw [haup, hadn]
      | @cons a2 b2 as2 bs2 hab2 hrest2 =>
          show List.Forall₂ relDirA
            ({ a with Iab_dir := |a2.Iup_dir - a.Iup_dir + iA - a.Idn_dir| } ::
              dirAbs lbr a.Idn_dir (a2 :: as2))
            ({ b with Iab_dir := |b2.Iup_dir - b.Iup_dir + iA - b.Idn_dir| } ::
              dirAbs lbr b.Idn_dir (b2 :: bs2))
          refine List.Forall₂.cons ⟨⟨hab4, haup, hadn⟩, ?_⟩ ?_
          · show |a2.Iup_dir - a.Iup_dir + iA - a.Idn_dir| =
              |b2.Iup_dir - b.Iup_dir + iA - b.Idn_dir|
            rw [haup, hadn, hab2.2.1]
          · rw [hadn]
            exact ih lbr b.Idn_dir

lemma difUp_cons (lbr : ℝ) (l : canopyLayer) (rest : List canopyLayer)
    {a1 : ℝ} {aout : List canopyLayer}
    (h1 : difUp lbr rest = Except.ok (a1, aout))
    {R0 T0 : ℝ} (h2 : rtDiffuse l = Except.ok (R0, T0)) :
    difUp lbr (l :: rest) = Except.ok
      (R0 + T0 * T0 * a1 * (1 + a1 * R0 / (1 - a1 * R0)),
       { l with
         Iup_dif := R0 + T0 * T0 * a1 * (1 + a1 * R0 / (1 - a1 * R0)),
         Idn_dif := T0 * (1 + a1 * R0 / (1 - a1 * R0)) } :: aout) := by
  rw [difUp, h1, h2]
  rfl

lemma difUp_congr : ∀ {ls ms : List canopyLayer}
    (h : List.Forall₂ relDirA ls ms) (lbr r : ℝ) (out : List canopyLayer),
    difUp lbr ls = Except.ok (r, out) →
    ∃ out2, difUp lbr ms = Except.ok (r, out2) ∧
      List.Forall₂ relDif2 out out2 := by
  intro ls ms h
  induction h with
  | nil =>
      intro lbr r out hup
      have h' := (Except.ok.injEq _ _).mp hup
      rw [Prod.ext_iff] at h'
      simp only at h'
      obtain ⟨rfl, rfl⟩ := h'
      exact ⟨[], rfl, List.Forall₂.nil⟩
  | cons hab hrest ih =>
      rename_i a b as bs
      intro lbr r out hup
      rcases hr : difUp lbr as with e | ⟨r2, out2⟩
      · rw [difUp, hr] at hup
        exact Except.noConfusion hup
      rcases hc : rtDiffuse a with e | ⟨R0, T0⟩
      · rw [difUp, hr, hc] at hup
        exact Except.noConfusion hup
      rw [difUp_cons lbr a as hr hc] at hup
      have h' := (Except.ok.injEq _ _).mp hup
      rw [Prod.ext_iff] at h'
      simp only at h'
      obtain ⟨e1, e2⟩ := h'
      have hcb : rtDiffuse b = Except.ok (R0, T0) := by
        rw [← rtDiffuse_congr hab.1.1.1]; exact hc
      obtain ⟨out2b, hms, hrel⟩ := ih lbr r2 out2 hr
      have hB := difUp_cons lbr b bs hms hcb
      rw [← e1, ← e2]
      exact ⟨_, hB, List.Forall₂.cons ⟨hab, rfl⟩ hrel⟩

lemma difNorm_cons (T : ℝ) (l : canopyLayer) (rest : List canopyLayer) :
    difNorm T (l :: rest) =
      { l with Iup_dif := l.Iup_dif * T, Idn_dif := l.Idn_dif * T } ::
        difNorm (T * l.Idn_dif) rest := rfl

lemma difNorm_congr : ∀ {ls ms : List canopyLayer}
    (h : List.Forall₂ relDif2 ls ms) (T : ℝ),
    List.Forall₂ relDif2 (difNorm T ls) (difNorm T ms) := by
  intro ls ms h
  induction h with
  | nil => intro T; exact List.Forall₂.nil
  | cons hab hrest ih =>
      rename_i a b as bs
      intro T
      obtain ⟨hA, hpr⟩ := hab
      have e1 : a.Iup_dif = b.Iup_dif := congrArg (fun q : ℝ × ℝ => q.1) hpr
      have e2 : a.Idn_dif = b.Idn_dif := congrArg (fun q : ℝ × ℝ => q.2) hpr
      rw [difNorm_cons, difNorm_cons]
      refine List.Forall₂.cons ⟨hA, ?_⟩ ?_
      · show (a.Iup_dif * T, a.Idn_dif * T) = (b.Iup_dif * T, b.Idn_dif * T)
        rw [e1, e2]
      · rw [e2]
        exact ih _

lemma difAbs_congr : ∀ {ls ms : List canopyLayer}
    (h : List.Forall₂ relDif2 ls ms) (lbr iA : ℝ),
    List.Forall₂ relDifA (difAbs lbr iA ls) (difAbs lbr iA ms) := by
  intro ls ms h
  induction h with
  | nil => intro lbr iA; exact List.Forall₂.nil
  | cons hab hrest ih =>
      rename_i a b as bs
      intro lbr iA
      obtain ⟨hA, hpr⟩ := hab
      have e1 : a.Iup_dif = b.Iup_dif := congrArg (fun q : ℝ × ℝ => q.1) hpr
      have e2 : a.Idn_dif = b.Idn_dif := congrArg (fun q : ℝ × ℝ => q.2) hpr
      cases hrest with
      | nil =>
          refine List.Forall₂.cons ⟨⟨hA, hpr⟩, ?_⟩ List.Forall₂.nil
          show |a.Idn_dif * lbr - a.Iup_dif + iA - a.Idn_dif| =
            |b.Idn_dif * lbr - b.Iup_dif + iA - b.Idn_dif|
          rw [e1, e2]
      | @cons a2 b2 as2 bs2 hab2 hrest2 =>
          have e3 : a2.Iup_dif = b2.Iup_dif :=
            congrArg (fun q : ℝ × ℝ => q.1) hab2.2
          show List.Forall₂ relDifA
            ({ a with Iab_dif := |a2.Iup_dif - a.Iup_dif + iA - a.Idn_dif| } ::
              difAbs lbr a.Idn_dif (a2 :: as2))
            ({ b with Iab_dif := |b2.Iup_dif - b.Iup_dif + iA - b.Idn_dif| } ::
              difAbs lbr b.Idn_dif (b2 :: bs2))
          refine List.Forall₂.cons ⟨⟨hA, hpr⟩, ?_⟩ ?_
          · show |a2.Iup_dif - a.Iup_dif + iA - a.Idn_dif| =
              |b2.Iup_dif - b.Iup_dif + iA - b.Idn_dif|
            rw [e1, e2, e3]
          · rw [e2]
            exact ih lbr b.Idn_dif

lemma blendUpd_congr (p : ℝ) {a b : canopyLayer} (h : relDifA a b) :
    blendUpd p a = blendUpd p b := by
  obtain ⟨⟨⟨⟨⟨h0, h4⟩, hup, hdn⟩, habr⟩, hpr⟩, habf⟩ := h
  have q1 := congrArg layerParams.mu h0
  have q2 := congrArg layerParams.leaf_r h0
  have q3 := congrArg layerParams.leaf_t h0
  have q4 := congrArg layerParams.lai h0
  have q5 := congrArg layerParams.gval h0
  have q6 := congrArg layerParams.zval h0
  have q7 := congrArg layerParams.bDif h0
  have q8 := congrArg layerParams.bDir h0
  have q9 := congrArg layerParams.muBarVal h0
  have q10 := congrArg layerParams.gsDif h0
  have q11 := congrArg layerParams.gsDir h0
  simp only [params] at q1 q2 q3 q4 q5 q6 q7 q8 q9 q10 q11
  have e1 : a.Iup_dir_u = b.Iup_dir_u := congrArg (fun q => q.1) h4
  have e2 : a.Iup_dir_c = b.Iup_dir_c :=
    congrArg (fun q : ℝ × ℝ × ℝ × ℝ => q.2.1) h4
  have e3 : a.Idn_dir_u = b.Idn_dir_u :=
    congrArg (fun q : ℝ × ℝ × ℝ × ℝ => q.2.2.1) h4
  have e4 : a.Idn_dir_c = b.Idn_dir_c :=
    congrArg (fun q : ℝ × ℝ × ℝ × ℝ => q.2.2.2) h4
  have f1 : a.Iup_dif = b.Iup_dif := congrArg (fun q : ℝ × ℝ => q.1) hpr
  have f2 : a.Idn_dif = b.Idn_dif := congrArg (fun q : ℝ × ℝ => q.2) hpr
  ext
  all_goals simp only [blendUpd, q1, q2, q3, q4, q5, q6, q7, q8, q9, q10, q11,
    e1, e2, e3, e4, f1, f2, hup, hdn, habr, habf]

lemma blend_map_congr {ls ms : List canopyLayer}
    (h : List.Forall₂ relDifA ls ms) (p : ℝ) :
    ls.map (blendUpd p) = ms.map (blendUpd p) := by
  induction h with
  | nil => rfl
  | cons hab hrest ih =>
      simp only [List.map_cons, blendUpd_congr p hab, ih]

lemma getFluxesCanopyDir_top {c c1 : layeredCanopy}
    (h : getFluxesCanopyDir c = Except.ok c1) :
    c1.mu = c.mu ∧ c1.lower_boundary_r = c.lower_boundary_r ∧
      c1.propDif = c.propDif := by
  obtain ⟨ru, rc, ls, hup, rfl⟩ := getFluxesCanopyDir_shape h
  exact ⟨rfl, rfl, rfl⟩

lemma getFluxesCanopyDif_top {c c1 : layeredCanopy}
    (h : getFluxesCanopyDif c = Except.ok c1) :
    c1.mu = c.mu ∧ c1.lower_boundary_r = c.lower_boundary_r ∧
      c1.propDif = c.propDif := by
  obtain ⟨r, ls, hup, rfl⟩ := getFluxesCanopyDif_shape h
  exact ⟨rfl, rfl, rfl⟩

lemma getFluxes_top {c c' : layeredCanopy} (h : getFluxes c = Except.ok c') :
    c'.mu = c.mu ∧ c'.lower_boundary_r = c.lower_boundary_r ∧
      c'.propDif = c.propDif := by
  obtain ⟨c1, c2, h1, h2, rfl⟩ := getFluxes_shape h
  obtain ⟨a1, a2, a3⟩ := getFluxesCanopyDir_top h1
  obtain ⟨b1, b2, b3⟩ := getFluxesCanopyDif_top h2
  exact ⟨b1.trans a1, b2.trans a2, b3.trans a3⟩

lemma getFluxesCanopyDir_congr {c d : layeredCanopy}
    (hlbr : d.lower_boundary_r = c.lower_boundary_r)
    (h : List.Forall₂ rel0 c.layers d.layers) {c1 : layeredCanopy}
    (hc : getFluxesCanopyDir c = Except.ok c1) :
    ∃ d1, getFluxesCanopyDir d = Except.ok d1 ∧
      List.Forall₂ relDirA c1.layers d1.layers := by
  obtain ⟨ru, rc, ls, hup, rfl⟩ := getFluxesCanopyDir_shape hc
  obtain ⟨out2, hms, hrel⟩ := dirUp_congr h c.lower_boundary_r ru rc ls hup
  have hms2 : dirUp d.lower_boundary_r d.layers = Except.ok (ru, rc, out2) := by
    rw [hlbr]; exact hms
  refine ⟨_, by rw [getFluxesCanopyDir, hms2]; rfl, ?_⟩
  show List.Forall₂ relDirA (dirAbs c.lower_boundary_r 1 (dirNorm 1 0 ls))
    (dirAbs d.lower_boundary_r 1 (dirNorm 1 0 out2))
  rw [hlbr]
  exact dirAbs_congr (dirNorm_congr hrel 1 0) c.lower_boundary_r 1

lemma getFluxesCanopyDif_congr {c d : layeredCanopy}
    (hlbr : d.lower_boundary_r = c.lower_boundary_r)
    (h : List.Forall₂ relDirA c.layers d.layers) {c1 : layeredCanopy}
    (hc : getFluxesCanopyDif c = Except.ok c1) :
    ∃ d1, getFluxesCanopyDif d = Except.ok d1 ∧
      List.Forall₂ relDifA c1.layers d1.layers := by
  obtain ⟨r, ls, hup, rfl⟩ := getFluxesCanopyDif_shape hc
  obtain ⟨out2, hms, hrel⟩ := difUp_congr h c.lower_boundary_r r ls hup
  have hms2 : difUp d.lower_boundary_r d.layers = Except.ok (r, out2) := by
    rw [hlbr]; exact hms
  refine ⟨_, by rw [getFluxesCanopyDif, hms2]; rfl, ?_⟩
  show List.Forall₂ relDifA (difAbs c.lower_boundary_r 1 (difNorm 1 ls))
    (difAbs d.lower_boundary_r 1 (difNorm 1 out2))
  rw [hlbr]
  exact difAbs_congr (difNorm_congr hrel 1) c.lower_boundary_r 1

lemma getFluxes_congr {c d : layeredCanopy}
    (hlbr : d.lower_boundary_r = c.lower_boundary_r)
    (hp : d.propDif = c.propDif)
    (h : List.Forall₂ rel0 c.layers d.layers) {c' : layeredCanopy}
    (hc : getFluxes c = Except.ok c') :
    ∃ d', getFluxes d = Except.ok d' ∧ d'.layers = c'.layers ∧
      d'.mu = d.mu ∧ d'.lower_boundary_r = d.lower_boundary_r ∧
      d'.propDif = d.propDif := by
  obtain ⟨c1, c2, h1, h2, rfl⟩ := getFluxes_shape hc
  obtain ⟨d1, hd1, hrel1⟩ := getFluxesCanopyDir_congr hlbr h h1
  obtain ⟨cm1, cl1, cp1⟩ := getFluxesCanopyDir_top h1
  obtain ⟨dm1, dl1, dp1⟩ := getFluxesCanopyDir_top hd1
  have hlbr1 : d1.lower_boundary_r = c1.lower_boundary_r := by
    rw [dl1, cl1, hlbr]
  obtain ⟨d2, hd2, hrel2⟩ := getFluxesCanopyDif_congr hlbr1 hrel1 h2
  obtain ⟨cm2, cl2, cp2⟩ := getFluxesCanopyDif_top h2
  obtain ⟨dm2, dl2, dp2⟩ := getFluxesCanopyDif_top hd2
  refine ⟨_, by rw [getFluxes_def, hd1, ok_bind, hd2, ok_bind], ?_, ?_, ?_, ?_⟩
  · show d2.layers.map (blendUpd d.propDif) = c2.layers.map (blendUpd c.propDif)
    rw [hp]
    exact (blend_map_congr hrel2 c.propDif).symm
  · show d2.mu = d.mu
    rw [dm2, dm1]
  · show d2.lower_boundary_r = d.lower_boundary_r
    rw [dl2, dl1]
  · show d2.propDif = d.propDif
    rw [dp2, dp1]

lemma forall₂_rel0_of_map : ∀ {ls ms : List canopyLayer},
    ls.map params = ms.map params → List.Forall₂ rel0 ls ms := by
  intro ls
  induction ls with
  | nil =>
      intro ms h
      cases ms with
      | nil => exact List.Forall₂.nil
      | cons m ms2 => simp at h
  | cons l ls2 ih =>
      intro ms h
      cases ms with
      | nil => simp at h
      | cons m ms2 =>
          simp only [List.map_cons, List.cons.injEq] at h
          exact List.Forall₂.cons h.1 (ih h.2)

lemma blend_map_params (p : ℝ) : ∀ ls : List canopyLayer,
    (ls.map (blendUpd p)).map params = ls.map params := by
  intro ls
  induction ls with
  | nil => rfl
  | cons l rest ih => simp only [List.map_cons, ih]; rfl

lemma getFluxes_params {c c' : layeredCanopy} (h : getFluxes c = Except.ok c') :
    c'.layers.map params = c.layers.map params := by
  obtain ⟨c1, c2, h1, h2, rfl⟩ := getFluxes_shape h
  show (c2.layers.map (blendUpd c.propDif)).map params = _
  rw [blend_map_params, getFluxesCanopyDif_params h2,
    getFluxesCanopyDir_params h1]

/-- Claim C9: `getFluxes` is idempotent — re-running it on its own
output (same parameters) returns exactly the same state — and its
result fields depend only on the input parameters (`mu`, leaf optics,
`lai`, scaling policies, geometry values, `lower_boundary_r`,
`propDif`), never on flux fields written by a prior invocation. -/
theorem getFluxes_idempotent (c c' : layeredCanopy)
    (h : getFluxes c = Except.ok c') :
    getFluxes c' = Except.ok c' ∧
    ∀ d, d.lower_boundary_r = c.lower_boundary_r → d.propDif = c.propDif →
      d.layers.map params = c.layers.map params →
      ∃ d', getFluxes d = Except.ok d' ∧ d'.layers = c'.layers := by
  obtain ⟨hmu, hlbr, hpd⟩ := getFluxes_top h
  have hpar := getFluxes_params h
  have main : ∀ d, d.lower_boundary_r = c.lower_boundary_r →
      d.propDif = c.propDif → d.layers.map params = c.layers.map params →
      ∃ d', getFluxes d = Except.ok d' ∧ d'.layers = c'.layers ∧
        d'.mu = d.mu ∧ d'.lower_boundary_r = d.lower_boundary_r ∧
        d'.propDif = d.propDif := by
    intro d h1 h2 h3
    exact getFluxes_congr h1 h2 (forall₂_rel0_of_map h3.symm) h
  refine ⟨?_, fun d h1 h2 h3 => ?_⟩
  · obtain ⟨d', hd, hlay, hm, hl, hp⟩ := main c' hlbr hpd hpar
    have hde : d' = c' := by
      apply layeredCanopy.ext
      · exact hm
      · exact hl
      · exact hp
      · exact hlay
    rw [hde] at hd
    exact hd
  · obtain ⟨d', hd, hlay, -, -, -⟩ := main d h1 h2 h3
    exact ⟨d', hd, hlay⟩

/-- Witness for C9 at the concrete single-layer canopy `exCanopy`. -/
theorem getFluxes_idempotent_witness :
    ∃ c', getFluxes exCanopy = Except.ok c' ∧
      getFluxes c' = Except.ok c' ∧
      ∀ d, d.lower_boundary_r = exCanopy.lower_boundary_r →
        d.propDif = exCanopy.propDif →
        d.layers.map params = exCanopy.layers.map params →
        ∃ d', getFluxes d = Except.ok d' ∧ d'.layers = c'.layers := by
  obtain ⟨c', hc⟩ := getFluxes_ok exCanopy exCanopy_policies
  exact ⟨c', hc, getFluxes_idempotent exCanopy c' hc⟩

lemma diffuse_range_core (g1 g2 k s : ℝ) (hg2 : 0 ≤ g2) (hg12 : g2 ≤ g1)
    (hk : 0 < k) (hs : 0 < s) (hs1 : s ≤ 1) :
    0 ≤ g2 * (1 - s ^ 2) / (k + g1 + (k - g1) * s ^ 2) ∧
    0 ≤ 2 * k * s / (k + g1 + (k - g1) * s ^ 2) ∧
    g2 * (1 - s ^ 2) / (k + g1 + (k - g1) * s ^ 2) +
      2 * k * s / (k + g1 + (k - g1) * s ^ 2) ≤ 1 := by
  have hg1 : 0 ≤ g1 := le_trans hg2 hg12
  have hs2 : s ^ 2 ≤ 1 := by nlinarith
  have hD : 0 < k + g1 + (k - g1) * s ^ 2 := by
    nlinarith [mul_pos hk (show (0:ℝ) < 1 + s ^ 2 by nlinarith [sq_nonneg s]),
      mul_nonneg hg1 (by linarith : (0:ℝ) ≤ 1 - s ^ 2)]
  refine ⟨div_nonneg (mul_nonneg hg2 (by linarith)) hD.le,
    div_nonneg (mul_nonneg (mul_nonneg (by norm_num) hk.le) hs.le) hD.le, ?_⟩
  rw [div_add_div_same, div_le_one hD]
  nlinarith [mul_nonneg hk.le (sq_nonneg (1 - s)),
    mul_nonneg (sub_nonneg.mpr hg12) (by linarith : (0:ℝ) ≤ 1 - s ^ 2)]

/-- Range invariant for the diffuse closed form (the `rtDiffuse` half of
the spec's range property): on the valid parameter domain the returned
pair satisfies `R, T` in `[0,1]` and `R + T` at most `1`. -/
theorem rtDiffuse_range (l : canopyLayer)
    (hr0 : 0 ≤ l.leaf_r) (ht0 : 0 ≤ l.leaf_t) (hw : l.leaf_r + l.leaf_t ≤ 1)
    (hlai : 0 ≤ l.lai) (hG : 0 < l.gval) (hZ : 0 < l.zval)
    (hB0 : 0 ≤ l.bDif) (hB1 : l.bDif ≤ 1) (hmuBar : 0 < l.muBarVal)
    (hsup : supported l.gamma_scaling_diffuse) :
    ∃ R T, rtDiffuse l = Except.ok (R, T) ∧
      0 ≤ R ∧ R ≤ 1 ∧ 0 ≤ T ∧ T ≤ 1 ∧ R + T ≤ 1 := by
  obtain ⟨scale, hsc, hg⟩ : ∃ s, 0 < s ∧
      getGamma l l.gamma_scaling_diffuse = Except.ok
        ((1 - (1 - l.bDif) * l.w) * s, (l.w * l.bDif) * s,
         l.bDir, 1 - l.bDir) := by
    rcases hsup with h | h
    · exact ⟨1 / (l.gval * l.muBarVal),
        div_pos one_pos (mul_pos hG hmuBar), by rw [h]; exact getGamma_delta l⟩
    · exact ⟨Real.sqrt 3, Real.sqrt_pos.mpr (by norm_num),
        by rw [h]; exact getGamma_quad l⟩
  have hw0 : 0 ≤ l.w := add_nonneg hr0 ht0
  have hw1 : l.w ≤ 1 := hw
  set g1 := (1 - (1 - l.bDif) * l.w) * scale with hg1_def
  set g2 := (l.w * l.bDif) * scale with hg2_def
  have hg2nn : 0 ≤ g2 := mul_nonneg (mul_nonneg hw0 hB0) hsc.le
  have hg12 : g2 ≤ g1 := by
    rw [hg1_def, hg2_def]
    nlinarith
  have hg1nn : 0 ≤ g1 := le_trans hg2nn hg12
  have hgoal : rtDiffuse l = Except.ok
      (g2 * (1 - Real.exp (-(2 * Real.sqrt (g1 * g1 - g2 * g2) *
          (l.lai * l.gval * l.zval)))) /
        (Real.sqrt (g1 * g1 - g2 * g2) + g1 +
          (Real.sqrt (g1 * g1 - g2 * g2) - g1) *
            Real.exp (-(2 * Real.sqrt (g1 * g1 - g2 * g2) *
              (l.lai * l.gval * l.zval)))),
       2 * Real.sqrt (g1 * g1 - g2 * g2) *
          Real.exp (-(Real.sqrt (g1 * g1 - g2 * g2) *
            (l.lai * l.gval * l.zval))) /
        (Real.sqrt (g1 * g1 - g2 * g2) + g1 +
          (Real.sqrt (g1 * g1 - g2 * g2) - g1) *
            Real.exp (-(2 * Real.sqrt (g1 * g1 - g2 * g2) *
              (l.lai * l.gval * l.zval))))) := by
    rw [rtDiffuse, hg]
    rfl
  set tau := l.lai * l.gval * l.zval with htau_def
  have htau : 0 ≤ tau := by positivity
  set k := Real.sqrt (g1 * g1 - g2 * g2) with hk_def
  have hknn : 0 ≤ k := Real.sqrt_nonneg _
  set x := Real.exp (-(2 * k * tau)) with hx_def
  set D := k + g1 + (k - g1) * x with hD_def
  rcases eq_or_lt_of_le hknn with hk0 | hkpos
  · -- Conservative scattering limit k = 0: the exponent vanishes, x = 1
    -- and D = 0; the source divides 0 by 0 and the real model gives
    -- (0, 0).
    have hx1 : x = 1 := by
      rw [hx_def, ← hk0]
      simp
    have hR : g2 * (1 - x) / D = 0 := by
      rw [hx1]
      simp
    have hT : 2 * k * Real.exp (-(k * tau)) / D = 0 := by
      rw [← hk0]
      simp
    refine ⟨_, _, hgoal, ?_, ?_, ?_, ?_, ?_⟩ <;>
      simp only [hR, hT] <;> norm_num
  · -- k > 0
    set s := Real.exp (-(k * tau)) with hs_def
    have hs : 0 < s := Real.exp_pos _
    have hs1 : s ≤ 1 := by
      rw [hs_def, ← Real.exp_zero]
      exact Real.exp_le_exp.mpr (by nlinarith)
    have hxs : x = s ^ 2 := by
      rw [hx_def, hs_def, sq, ← Real.exp_add]
      congr 1
      ring
    have hDs : D = k + g1 + (k - g1) * s ^ 2 := by rw [hD_def, hxs]
    obtain ⟨c1, c2, c3⟩ := diffuse_range_core g1 g2 k s hg2nn hg12 hkpos hs hs1
    rw [hxs] at hgoal
    rw [hDs] at hgoal
    exact ⟨_, _, hgoal, c1, by linarith, c2, by linarith, c3⟩

/-- Normalized uncollided attenuation `exp(-t/m)` of the direct closed
form, in the variables `t = k*tau`, `m = k*mu`; for `k > 0` it equals the
source's `exp(-tau/mu)`. -/
def mwE (m t : ℝ) : ℝ := Real.exp (-(t / m))

/-- Bracket `cosh t - m*sinh t - exp(-t/m)` carried by the `k*g3` part of
the direct reflectance numerator. -/
def mwU1 (m t : ℝ) : ℝ := Real.cosh t - m * Real.sinh t - mwE m t

/-- Bracket `sinh t - m*cosh t + m*exp(-t/m)` carried by the `a2` part of
the direct reflectance numerator. -/
def mwU2 (m t : ℝ) : ℝ := Real.sinh t - m * Real.cosh t + m * mwE m t

/-- Bracket `m*exp(t/m) - m*cosh t - sinh t` carried by the `a1` part of
the direct transmittance numerator. -/
def mwV1 (m t : ℝ) : ℝ := m * Real.exp (t / m) - m * Real.cosh t - Real.sinh t

/-- Bracket `exp(t/m) - cosh t - m*sinh t` carried by the `k*g4` part of
the direct transmittance numerator. -/
def mwV2 (m t : ℝ) : ℝ := Real.exp (t / m) - Real.cosh t - m * Real.sinh t

/-- Vertex value of the energy-balance form at `g3 = 0`, `k = g1`,
normalized by `g1`. -/
def mwJ1 (m t : ℝ) : ℝ :=
  (1 - mwE m t) * (1 - m ^ 2) * (Real.cosh t + Real.sinh t) -
    mwE m t * mwV1 m t - mwE m t * mwV2 m t

/-- Second vertex combination: `mwJ1` minus the `mwU2` bracket. -/
def mwJ2 (m t : ℝ) : ℝ := mwJ1 m t - mwU2 m t

/-- Vertex combination shared by the `k = g1 - g2` endpoints. -/
def mwJ3 (m t : ℝ) : ℝ :=
  (1 - mwE m t) * (1 - m ^ 2) * Real.sinh t - mwE m t * mwV1 m t - mwU2 m t

/-- Vertex value of the energy-balance form at `g3 = 1`, `k = g1`,
normalized by `g1`. -/
def mwJ4 (m t : ℝ) : ℝ :=
  (1 - mwE m t) * (1 - m ^ 2) * (Real.cosh t + Real.sinh t) - mwU1 m t - mwU2 m t

/-- Fifth vertex combination: `mwJ4` minus the attenuated `mwV1` bracket. -/
def mwJ5 (m t : ℝ) : ℝ := mwJ4 m t - mwE m t * mwV1 m t

lemma exp_affine_combo (a b la lb : ℝ) (hla : 0 ≤ la) (hlb : 0 ≤ lb)
    (hs : la + lb = 1) :
    Real.exp (la * a + lb * b) ≤ la * Real.exp a + lb * Real.exp b := by
  have h := convexOn_exp.2 (Set.mem_univ a) (Set.mem_univ b) hla hlb hs
  simpa [smul_eq_mul] using h

/-- Three-point Jensen bound for the exponential: a nonnegative mass
distribution whose weighted exponent dominates the target exponent
dominates the target exponential. -/
lemma jensen_dominate (c1 c2 c3 c0 s1 s2 s3 s0 : ℝ)
    (h1 : 0 ≤ c1) (h2 : 0 ≤ c2) (h3 : 0 ≤ c3) (hc : c1 + c2 + c3 = c0)
    (hs : c0 * s0 ≤ c1 * s1 + c2 * s2 + c3 * s3) :
    c0 * Real.exp s0 ≤ c1 * Real.exp s1 + c2 * Real.exp s2 + c3 * Real.exp s3 := by
  rcases eq_or_lt_of_le (show (0:ℝ) ≤ c0 by linarith) with hc0 | hc0
  · have e1 : c1 = 0 := by linarith
    have e2 : c2 = 0 := by linarith
    have e3 : c3 = 0 := by linarith
    simp [e1, e2, e3, ← hc0]
  · have hc0ne : c0 ≠ 0 := ne_of_gt hc0
    rcases eq_or_lt_of_le (show (0:ℝ) ≤ c2 + c3 by linarith) with hr | hr
    · have e2 : c2 = 0 := by linarith
      have e3 : c3 = 0 := by linarith
      have e1 : c1 = c0 := by linarith
      have hs1 : s0 ≤ s1 := by
        have hmul : c0 * s0 ≤ c0 * s1 := by
          calc c0 * s0 ≤ c1 * s1 + c2 * s2 + c3 * s3 := hs
          _ = c0 * s1 := by rw [e1, e2, e3]; ring
        exact (mul_le_mul_left hc0).mp hmul
      calc c0 * Real.exp s0 ≤ c0 * Real.exp s1 :=
            mul_le_mul_of_nonneg_left (Real.exp_le_exp.mpr hs1) hc0.le
        _ = c1 * Real.exp s1 + c2 * Real.exp s2 + c3 * Real.exp s3 := by
            rw [e1, e2, e3]; ring
    · have hrne : c2 + c3 ≠ 0 := ne_of_gt hr
      have hu : (c2 + c3) * ((c2 * s2 + c3 * s3) / (c2 + c3)) = c2 * s2 + c3 * s3 := by
        field_simp
      have hstep1 : Real.exp ((c2 * s2 + c3 * s3) / (c2 + c3)) ≤
          (c2 / (c2 + c3)) * Real.exp s2 + (c3 / (c2 + c3)) * Real.exp s3 := by
        have harg : (c2 / (c2 + c3)) * s2 + (c3 / (c2 + c3)) * s3 =
            (c2 * s2 + c3 * s3) / (c2 + c3) := by
          field_simp
        have h := exp_affine_combo s2 s3 (c2 / (c2 + c3)) (c3 / (c2 + c3))
          (div_nonneg h2 hr.le) (div_nonneg h3 hr.le) (by field_simp)
        rwa [harg] at h
      have hs0 : s0 ≤ (c1 / c0) * s1 + ((c2 + c3) / c0) * ((c2 * s2 + c3 * s3) / (c2 + c3)) := by
        rw [div_mul_eq_mul_div, div_mul_eq_mul_div, ← add_div, le_div_iff hc0]
        calc s0 * c0 = c0 * s0 := by ring
        _ ≤ c1 * s1 + c2 * s2 + c3 * s3 := hs
        _ = c1 * s1 + (c2 + c3) * ((c2 * s2 + c3 * s3) / (c2 + c3)) := by rw [hu]; ring
      have hstep2 : Real.exp ((c1 / c0) * s1 +
          ((c2 + c3) / c0) * ((c2 * s2 + c3 * s3) / (c2 + c3))) ≤
          (c1 / c0) * Real.exp s1 +
            ((c2 + c3) / c0) * Real.exp ((c2 * s2 + c3 * s3) / (c2 + c3)) :=
        exp_affine_combo _ _ _ _ (div_nonneg h1 hc0.le) (div_nonneg hr.le hc0.le)
          (by field_simp; linarith)
      calc c0 * Real.exp s0
          ≤ c0 * Real.exp ((c1 / c0) * s1 +
              ((c2 + c3) / c0) * ((c2 * s2 + c3 * s3) / (c2 + c3))) :=
            mul_le_mul_of_nonneg_left (Real.exp_le_exp.mpr hs0) hc0.le
        _ ≤ c0 * ((c1 / c0) * Real.exp s1 +
              ((c2 + c3) / c0) * Real.exp ((c2 * s2 + c3 * s3) / (c2 + c3))) :=
            mul_le_mul_of_nonneg_left hstep2 hc0.le
        _ = c1 * Real.exp s1 + (c2 + c3) * Real.exp ((c2 * s2 + c3 * s3) / (c2 + c3)) := by
            field_simp
        _ ≤ c1 * Real.exp s1 + (c2 + c3) *
              ((c2 / (c2 + c3)) * Real.exp s2 + (c3 / (c2 + c3)) * Real.exp s3) := by
            have := mul_le_mul_of_nonneg_left hstep1 hr.le
            linarith
        _ = c1 * Real.exp s1 + c2 * Real.exp s2 + c3 * Real.exp s3 := by
            field_simp
            ring

lemma mwE_pos (m t : ℝ) : 0 < mwE m t := Real.exp_pos _

lemma mwE_le_one (m t : ℝ) (hm : 0 < m) (ht : 0 ≤ t) : mwE m t ≤ 1 :=
  Real.exp_le_one_iff.mpr (neg_nonpos.mpr (div_nonneg ht hm.le))

lemma mwU2_nonneg (m t : ℝ) (hm : 0 < m) (hm1 : m ≤ 1) (ht : 0 ≤ t) :
    0 ≤ mwU2 m t := by
  have hmt : m * (t / m) = t := by field_simp
  have key : ((1 + m) / 2) * Real.exp (-t) ≤
      ((1 - m) / 2) * Real.exp t + m * Real.exp (-(t / m)) + 0 * Real.exp 0 :=
    jensen_dominate _ _ _ _ _ _ _ _ (by linarith) hm.le le_rfl (by ring)
      (le_of_eq (by nlinarith [hmt]))
  simp only [mwU2, mwE]
  rw [Real.sinh_eq, Real.cosh_eq]
  nlinarith [key]

lemma mwU2_nonpos (m t : ℝ) (hm1 : 1 ≤ m) (ht : 0 ≤ t) : mwU2 m t ≤ 0 := by
  have hm : 0 < m := lt_of_lt_of_le one_pos hm1
  have hmt : m * (t / m) = t := by field_simp
  have key : m * Real.exp (-(t / m)) ≤
      ((m - 1) / 2) * Real.exp t + ((m + 1) / 2) * Real.exp (-t) + 0 * Real.exp 0 :=
    jensen_dominate _ _ _ _ _ _ _ _ (by linarith) (by linarith) le_rfl (by ring)
      (le_of_eq (by nlinarith [hmt]))
  simp only [mwU2, mwE]
  rw [Real.sinh_eq, Real.cosh_eq]
  nlinarith [key]

lemma mwU1_nonneg (m t : ℝ) (hm : 0 < m) (hm1 : m ≤ 1) (ht : 0 ≤ t) :
    0 ≤ mwU1 m t := by
  have key : 1 * Real.exp (-(m * t)) ≤
      ((1 - m) / 2) * Real.exp t + ((1 + m) / 2) * Real.exp (-t) + 0 * Real.exp 0 :=
    jensen_dominate _ _ _ _ _ _ _ _ (by linarith) (by linarith) le_rfl (by ring)
      (le_of_eq (by ring))
  have hcmp : Real.exp (-(t / m)) ≤ Real.exp (-(m * t)) := by
    apply Real.exp_le_exp.mpr
    have hmt : m * (t / m) = t := by field_simp
    have h1 : m * (m * t) ≤ m * (t / m) := by
      rw [hmt]
      nlinarith [mul_nonneg (mul_nonneg (sub_nonneg.2 hm1) ht)
        (show (0:ℝ) ≤ 1 + m by linarith)]
    have h2 := (mul_le_mul_left hm).mp h1
    linarith
  simp only [mwU1, mwE]
  rw [Real.sinh_eq, Real.cosh_eq]
  nlinarith [key, hcmp]

lemma mwU1_nonpos (m t : ℝ) (hm1 : 1 ≤ m) (ht : 0 ≤ t) : mwU1 m t ≤ 0 := by
  have hm : 0 < m := lt_of_lt_of_le one_pos hm1
  have hS : 0 ≤ Real.sinh t := Real.sinh_nonneg_iff.mpr ht
  have hstep : Real.cosh t - m * Real.sinh t ≤ Real.exp (-t) := by
    have h1 : Real.cosh t - m * Real.sinh t ≤ Real.cosh t - Real.sinh t := by nlinarith
    rw [Real.cosh_sub_sinh] at h1
    exact h1
  have hcmp : Real.exp (-t) ≤ Real.exp (-(t / m)) := by
    apply Real.exp_le_exp.mpr
    have : t / m ≤ t := div_le_self ht hm1
    linarith
  simp only [mwU1, mwE]
  linarith

lemma mwV1_nonneg (m t : ℝ) (hm : 0 < m) (hm1 : m ≤ 1) (ht : 0 ≤ t) :
    0 ≤ mwV1 m t := by
  have hmt : m * (t / m) = t := by field_simp
  have key : ((1 + m) / 2) * Real.exp t ≤
      m * Real.exp (t / m) + ((1 - m) / 2) * Real.exp (-t) + 0 * Real.exp 0 :=
    jensen_dominate _ _ _ _ _ _ _ _ hm.le (by linarith) le_rfl (by ring)
      (le_of_eq (by nlinarith [hmt]))
  simp only [mwV1]
  rw [Real.sinh_eq, Real.cosh_eq]
  nlinarith [key]

lemma mwV1_nonpos (m t : ℝ) (hm1 : 1 ≤ m) (ht : 0 ≤ t) : mwV1 m t ≤ 0 := by
  have hm : 0 < m := lt_of_lt_of_le one_pos hm1
  have hmt : m * (t / m) = t := by field_simp
  have key : m * Real.exp (t / m) ≤
      ((m + 1) / 2) * Real.exp t + ((m - 1) / 2) * Real.exp (-t) + 0 * Real.exp 0 :=
    jensen_dominate _ _ _ _ _ _ _ _ (by linarith) (by linarith) le_rfl (by ring)
      (le_of_eq (by nlinarith [hmt]))
  simp only [mwV1]
  rw [Real.sinh_eq, Real.cosh_eq]
  nlinarith [key]

lemma mwV2_nonneg (m t : ℝ) (hm : 0 < m) (hm1 : m ≤ 1) (ht : 0 ≤ t) :
    0 ≤ mwV2 m t := by
  have hS : 0 ≤ Real.sinh t := Real.sinh_nonneg_iff.mpr ht
  have hcmp : Real.exp t ≤ Real.exp (t / m) := by
    apply Real.exp_le_exp.mpr
    rw [le_div_iff hm]
    nlinarith
  have hx : Real.exp t = Real.cosh t + Real.sinh t := (Real.cosh_add_sinh t).symm
  simp only [mwV2]
  nlinarith [hcmp, hx]

lemma mwV2_nonpos (m t : ℝ) (hm1 : 1 ≤ m) (ht : 0 ≤ t) : mwV2 m t ≤ 0 := by
  have hm : 0 < m := lt_of_lt_of_le one_pos hm1
  have hS : 0 ≤ Real.sinh t := Real.sinh_nonneg_iff.mpr ht
  have hcmp : Real.exp (t / m) ≤ Real.exp t :=
    Real.exp_le_exp.mpr (div_le_self ht hm1)
  have hx : Real.exp t = Real.cosh t + Real.sinh t := (Real.cosh_add_sinh t).symm
  simp only [mwV2]
  nlinarith [hcmp, hx]

lemma expE_mul (m t : ℝ) : Real.exp (-(t / m)) * Real.exp (t / m) = 1 := by
  rw [← Real.exp_add]
  simp

/-- Exponential-atom form of `mwJ2`, used for the derivative argument. -/
def fJ2 (m t : ℝ) : ℝ :=
  (1 - m) * (2 * m + 1) / 2 * Real.exp t + (1 + m) / 2 * Real.exp (-t) - (1 + m) +
    m * (1 + m) * (Real.exp t * Real.exp (-(t / m))) - m * Real.exp (-(t / m))

lemma fJ2_eq (m t : ℝ) : fJ2 m t = mwJ2 m t := by
  have h := expE_mul m t
  simp only [fJ2, mwJ2, mwJ1, mwU2, mwV1, mwV2, mwE]
  rw [Real.cosh_eq, Real.sinh_eq]
  linear_combination (1 + m) * h

lemma fJ2_hasDerivAt (m : ℝ) (hm : m ≠ 0) (t : ℝ) :
    HasDerivAt (fun s => fJ2 m s)
      ((1 - m) * (2 * m + 1) / 2 * Real.exp t - (1 + m) / 2 * Real.exp (-t) -
        (1 - m ^ 2) * (Real.exp t * Real.exp (-(t / m))) + Real.exp (-(t / m))) t := by
  have he : HasDerivAt (fun s : ℝ => Real.exp s) (Real.exp t) t := Real.hasDerivAt_exp t
  have hen : HasDerivAt (fun s : ℝ => Real.exp (-s)) (-Real.exp (-t)) t := by
    simpa using (Real.hasDerivAt_exp (-t)).comp t (hasDerivAt_neg' t)
  have hinner : HasDerivAt (fun s : ℝ => -(s / m)) (-(1 / m)) t := by
    simpa [one_div] using ((hasDerivAt_id t).div_const m).neg
  have hem : HasDerivAt (fun s : ℝ => Real.exp (-(s / m)))
      (-(1 / m) * Real.exp (-(t / m))) t := by
    simpa [mul_comm] using (Real.hasDerivAt_exp (-(t / m))).comp t hinner
  have hprod : HasDerivAt (fun s : ℝ => Real.exp s * Real.exp (-(s / m)))
      (Real.exp t * Real.exp (-(t / m)) +
        Real.exp t * (-(1 / m) * Real.exp (-(t / m)))) t := he.mul hem
  have H := ((((he.const_mul ((1 - m) * (2 * m + 1) / 2)).add
      (hen.const_mul ((1 + m) / 2))).sub (hasDerivAt_const t (1 + m))).add
      (hprod.const_mul (m * (1 + m)))).sub (hem.const_mul m)
  convert H using 1
  field_simp
  ring

lemma fJ2_zero (m : ℝ) : fJ2 m 0 = 0 := by
  simp only [fJ2, neg_zero, zero_div, Real.exp_zero]
  ring

lemma fJ2_deriv_nonneg (m x : ℝ) (hm : 0 < m) (hm1 : m ≤ 1) (hx : 0 ≤ x) :
    0 ≤ (1 - m) * (2 * m + 1) / 2 * Real.exp x - (1 + m) / 2 * Real.exp (-x) -
      (1 - m ^ 2) * (Real.exp x * Real.exp (-(x / m))) + Real.exp (-(x / m)) := by
  have hm' : m ≠ 0 := hm.ne'
  have hbr1 : ((1 + m) / 2) * Real.exp (-x) ≤
      ((1 - m) / 2) * Real.exp x + m * Real.exp (-(x / m)) + 0 * Real.exp 0 :=
    jensen_dominate _ _ _ _ _ _ _ _ (by linarith) hm.le le_rfl (by ring)
      (le_of_eq (by field_simp; ring))
  have hexy : Real.exp x * Real.exp (-(x / m)) = Real.exp (x + -(x / m)) :=
    (Real.exp_add _ _).symm
  have hbr2 : (1 + m) * Real.exp (x + -(x / m)) ≤
      m * Real.exp x + 1 * Real.exp (-(x / m)) + 0 * Real.exp 0 :=
    jensen_dominate _ _ _ _ _ _ _ _ hm.le zero_le_one le_rfl (by ring)
      (le_of_eq (by field_simp; ring))
  rw [hexy]
  nlinarith [hbr1, hbr2, mul_le_mul_of_nonneg_left hbr2
    (show (0:ℝ) ≤ 1 - m by linarith)]

lemma fJ2_deriv_nonpos (m x : ℝ) (hm1 : 1 ≤ m) (hx : 0 ≤ x) :
    (1 - m) * (2 * m + 1) / 2 * Real.exp x - (1 + m) / 2 * Real.exp (-x) -
      (1 - m ^ 2) * (Real.exp x * Real.exp (-(x / m))) + Real.exp (-(x / m)) ≤ 0 := by
  have hm : 0 < m := lt_of_lt_of_le one_pos hm1
  have hm' : m ≠ 0 := hm.ne'
  have hbr1 : m * Real.exp (-(x / m)) ≤
      ((m - 1) / 2) * Real.exp x + ((m + 1) / 2) * Real.exp (-x) + 0 * Real.exp 0 :=
    jensen_dominate _ _ _ _ _ _ _ _ (by linarith) (by linarith) le_rfl (by ring)
      (le_of_eq (by field_simp; ring))
  have hexy : Real.exp x * Real.exp (-(x / m)) = Real.exp (x + -(x / m)) :=
    (Real.exp_add _ _).symm
  have hbr2 : (1 + m) * Real.exp (x + -(x / m)) ≤
      m * Real.exp x + 1 * Real.exp (-(x / m)) + 0 * Real.exp 0 :=
    jensen_dominate _ _ _ _ _ _ _ _ hm.le zero_le_one le_rfl (by ring)
      (le_of_eq (by field_simp; ring))
  rw [hexy]
  nlinarith [hbr1, hbr2, mul_le_mul_of_nonneg_left hbr2
    (show (0:ℝ) ≤ m - 1 by linarith)]

lemma mwJ2_nonneg (m t : ℝ) (hm : 0 < m) (hm1 : m ≤ 1) (ht : 0 ≤ t) :
    0 ≤ mwJ2 m t := by
  rw [← fJ2_eq m t]
  have hdf : Differentiable ℝ (fun u => fJ2 m u) := fun u =>
    (fJ2_hasDerivAt m hm.ne' u).differentiableAt
  have hmono : MonotoneOn (fun u => fJ2 m u) (Set.Ici 0) := by
    apply monotoneOn_of_deriv_nonneg (convex_Ici 0) hdf.continuous.continuousOn
      hdf.differentiableOn
    intro x hx
    rw [interior_Ici, Set.mem_Ioi] at hx
    rw [(fJ2_hasDerivAt m hm.ne' x).deriv]
    exact fJ2_deriv_nonneg m x hm hm1 hx.le
  have h : fJ2 m 0 ≤ fJ2 m t := hmono Set.left_mem_Ici (Set.mem_Ici.mpr ht) ht
  rw [fJ2_zero] at h
  exact h

lemma mwJ2_nonpos (m t : ℝ) (hm1 : 1 ≤ m) (ht : 0 ≤ t) : mwJ2 m t ≤ 0 := by
  have hm : 0 < m := lt_of_lt_of_le one_pos hm1
  rw [← fJ2_eq m t]
  have hdf : Differentiable ℝ (fun u => fJ2 m u) := fun u =>
    (fJ2_hasDerivAt m hm.ne' u).differentiableAt
  have hanti : AntitoneOn (fun u => fJ2 m u) (Set.Ici 0) := by
    apply antitoneOn_of_deriv_nonpos (convex_Ici 0) hdf.continuous.continuousOn
      hdf.differentiableOn
    intro x hx
    rw [interior_Ici, Set.mem_Ioi] at hx
    rw [(fJ2_hasDerivAt m hm.ne' x).deriv]
    exact fJ2_deriv_nonpos m x hm1 hx.le
  have h : fJ2 m t ≤ fJ2 m 0 := hanti Set.left_mem_Ici (Set.mem_Ici.mpr ht) ht
  rw [fJ2_zero] at h
  exact h

/-- Exponential-atom form of `mwJ5`, used for the derivative argument. -/
def fJ5 (m t : ℝ) : ℝ :=
  m * (1 - m) * Real.exp t - m +
    (1 + m) * (2 * m - 1) / 2 * (Real.exp t * Real.exp (-(t / m))) +
    (1 - m) * Real.exp (-(t / m)) -
    (1 - m) / 2 * (Real.exp (-t) * Real.exp (-(t / m)))

lemma fJ5_eq (m t : ℝ) : fJ5 m t = mwJ5 m t := by
  have h := expE_mul m t
  simp only [fJ5, mwJ5, mwJ4, mwU1, mwU2, mwV1, mwE]
  rw [Real.cosh_eq, Real.sinh_eq]
  linear_combination m * h

lemma fJ5_hasDerivAt (m : ℝ) (hm : m ≠ 0) (t : ℝ) :
    HasDerivAt (fun s => fJ5 m s)
      (m * (1 - m) * Real.exp t -
        (1 - m ^ 2) * (2 * m - 1) / (2 * m) * (Real.exp t * Real.exp (-(t / m))) -
        (1 - m) / m * Real.exp (-(t / m)) +
        (1 - m ^ 2) / (2 * m) * (Real.exp (-t) * Real.exp (-(t / m)))) t := by
  have he : HasDerivAt (fun s : ℝ => Real.exp s) (Real.exp t) t := Real.hasDerivAt_exp t
  have hen : HasDerivAt (fun s : ℝ => Real.exp (-s)) (-Real.exp (-t)) t := by
    simpa using (Real.hasDerivAt_exp (-t)).comp t (hasDerivAt_neg' t)
  have hinner : HasDerivAt (fun s : ℝ => -(s / m)) (-(1 / m)) t := by
    simpa [one_div] using ((hasDerivAt_id t).div_const m).neg
  have hem : HasDerivAt (fun s : ℝ => Real.exp (-(s / m)))
      (-(1 / m) * Real.exp (-(t / m))) t := by
    simpa [mul_comm] using (Real.hasDerivAt_exp (-(t / m))).comp t hinner
  have hprod : HasDerivAt (fun s : ℝ => Real.exp s * Real.exp (-(s / m)))
      (Real.exp t * Real.exp (-(t / m)) +
        Real.exp t * (-(1 / m) * Real.exp (-(t / m)))) t := he.mul hem
  have hprod2 : HasDerivAt (fun s : ℝ => Real.exp (-s) * Real.exp (-(s / m)))
      (-Real.exp (-t) * Real.exp (-(t / m)) +
        Real.exp (-t) * (-(1 / m) * Real.exp (-(t / m)))) t := hen.mul hem
  have H := ((((he.const_mul (m * (1 - m))).sub (hasDerivAt_const t m)).add
      (hprod.const_mul ((1 + m) * (2 * m - 1) / 2))).add
      (hem.const_mul (1 - m))).sub (hprod2.const_mul ((1 - m) / 2))
  convert H using 1
  field_simp
  ring

lemma fJ5_zero (m : ℝ) : fJ5 m 0 = 0 := by
  simp only [fJ5, neg_zero, zero_div, Real.exp_zero]
  ring

lemma fJ5_deriv_parts (m x : ℝ) (hm : 0 < m) (hx : 0 ≤ x) :
    (2 * m + 1) * Real.exp (x + -(x / m)) ≤
      2 * m * Real.exp x + 1 * Real.exp (-x + -(x / m)) + 0 * Real.exp 0 ∧
    (2 * m + 1) * Real.exp (-(x / m)) ≤
      m * Real.exp x + (m + 1) * Real.exp (-x + -(x / m)) + 0 * Real.exp 0 := by
  have hm' : m ≠ 0 := hm.ne'
  constructor
  · exact jensen_dominate _ _ _ _ _ _ _ _ (by positivity) zero_le_one le_rfl
      (by ring) (le_of_eq (by field_simp; ring))
  · exact jensen_dominate _ _ _ _ _ _ _ _ hm.le (by linarith) le_rfl
      (by ring) (le_of_eq (by field_simp; ring))

set_option maxHeartbeats 1000000 in
lemma fJ5_deriv_nonneg (m x : ℝ) (hm : 0 < m) (hm1 : m ≤ 1) (hx : 0 ≤ x) :
    0 ≤ m * (1 - m) * Real.exp x -
      (1 - m ^ 2) * (2 * m - 1) / (2 * m) * (Real.exp x * Real.exp (-(x / m))) -
      (1 - m) / m * Real.exp (-(x / m)) +
      (1 - m ^ 2) / (2 * m) * (Real.exp (-x) * Real.exp (-(x / m))) := by
  have hm' : m ≠ 0 := hm.ne'
  have hexy : Real.exp x * Real.exp (-(x / m)) = Real.exp (x + -(x / m)) :=
    (Real.exp_add _ _).symm
  have hexy2 : Real.exp (-x) * Real.exp (-(x / m)) = Real.exp (-x + -(x / m)) :=
    (Real.exp_add _ _).symm
  have hfac : (0:ℝ) < 2 * m * (2 * m + 1) := by positivity
  have hrw : 2 * m * (2 * m + 1) * (m * (1 - m) * Real.exp x -
      (1 - m ^ 2) * (2 * m - 1) / (2 * m) * Real.exp (x + -(x / m)) -
      (1 - m) / m * Real.exp (-(x / m)) +
      (1 - m ^ 2) / (2 * m) * Real.exp (-x + -(x / m))) =
      2 * m ^ 2 * (1 - m) * (2 * m + 1) * Real.exp x -
      (1 - m ^ 2) * (2 * m - 1) * (2 * m + 1) * Real.exp (x + -(x / m)) -
      2 * (1 - m) * (2 * m + 1) * Real.exp (-(x / m)) +
      (1 - m ^ 2) * (2 * m + 1) * Real.exp (-x + -(x / m)) := by
    field_simp
    ring
  rw [hexy, hexy2]
  rcases le_total ((1:ℝ) / 2) m with hhalf | hhalf
  · obtain ⟨hB1, hB2⟩ := fJ5_deriv_parts m x hm hx
    have hc1 : 0 ≤ (1 - m ^ 2) * (2 * m - 1) := by
      nlinarith [mul_nonneg (mul_nonneg (show (0:ℝ) ≤ 1 - m by linarith)
        (show (0:ℝ) ≤ 1 + m by linarith)) (show (0:ℝ) ≤ 2 * m - 1 by linarith)]
    have hc2 : 0 ≤ 2 * (1 - m) := by linarith
    have hmain : 0 ≤ 2 * m * (2 * m + 1) * (m * (1 - m) * Real.exp x -
        (1 - m ^ 2) * (2 * m - 1) / (2 * m) * Real.exp (x + -(x / m)) -
        (1 - m) / m * Real.exp (-(x / m)) +
        (1 - m ^ 2) / (2 * m) * Real.exp (-x + -(x / m))) := by
      rw [hrw]
      nlinarith [mul_le_mul_of_nonneg_left hB1 hc1, mul_le_mul_of_nonneg_left hB2 hc2]
    by_contra hcon
    push_neg at hcon
    nlinarith [hmain, hcon, hfac]
  · have h3 : 2 * (1 - m) * Real.exp (-(x / m)) ≤
        2 * m ^ 2 * (1 - m) * Real.exp x +
          (1 - m ^ 2) * (1 - 2 * m) * Real.exp (x + -(x / m)) +
          (1 - m ^ 2) * Real.exp (-x + -(x / m)) := by
      apply jensen_dominate
      · exact mul_nonneg (by positivity) (by linarith)
      · nlinarith [mul_nonneg (mul_nonneg (show (0:ℝ) ≤ 1 - m by linarith)
          (show (0:ℝ) ≤ 1 + m by linarith)) (show (0:ℝ) ≤ 1 - 2 * m by linarith)]
      · nlinarith [mul_nonneg (show (0:ℝ) ≤ 1 - m by linarith)
          (show (0:ℝ) ≤ 1 + m by linarith)]
      · ring
      · apply le_of_eq
        field_simp
        ring
    have hrw2 : 2 * m * (m * (1 - m) * Real.exp x -
        (1 - m ^ 2) * (2 * m - 1) / (2 * m) * Real.exp (x + -(x / m)) -
        (1 - m) / m * Real.exp (-(x / m)) +
        (1 - m ^ 2) / (2 * m) * Real.exp (-x + -(x / m))) =
        2 * m ^ 2 * (1 - m) * Real.exp x +
          (1 - m ^ 2) * (1 - 2 * m) * Real.exp (x + -(x / m)) +
          (1 - m ^ 2) * Real.exp (-x + -(x / m)) -
          2 * (1 - m) * Real.exp (-(x / m)) := by
      field_simp
      ring
    have hmain : 0 ≤ 2 * m * (m * (1 - m) * Real.exp x -
        (1 - m ^ 2) * (2 * m - 1) / (2 * m) * Real.exp (x + -(x / m)) -
        (1 - m) / m * Real.exp (-(x / m)) +
        (1 - m ^ 2) / (2 * m) * Real.exp (-x + -(x / m))) := by
      rw [hrw2]
      linarith [h3]
    by_contra hcon
    push_neg at hcon
    nlinarith [hmain, hcon, hm]

set_option maxHeartbeats 1000000 in
lemma fJ5_deriv_nonpos (m x : ℝ) (hm1 : 1 ≤ m) (hx : 0 ≤ x) :
    m * (1 - m) * Real.exp x -
      (1 - m ^ 2) * (2 * m - 1) / (2 * m) * (Real.exp x * Real.exp (-(x / m))) -
      (1 - m) / m * Real.exp (-(x / m)) +
      (1 - m ^ 2) / (2 * m) * (Real.exp (-x) * Real.exp (-(x / m))) ≤ 0 := by
  have hm : 0 < m := lt_of_lt_of_le one_pos hm1
  have hm' : m ≠ 0 := hm.ne'
  have hexy : Real.exp x * Real.exp (-(x / m)) = Real.exp (x + -(x / m)) :=
    (Real.exp_add _ _).symm
  have hexy2 : Real.exp (-x) * Real.exp (-(x / m)) = Real.exp (-x + -(x / m)) :=
    (Real.exp_add _ _).symm
  have hfac : (0:ℝ) < 2 * m * (2 * m + 1) := by positivity
  obtain ⟨hB1, hB2⟩ := fJ5_deriv_parts m x hm hx
  have hc1 : 0 ≤ (m ^ 2 - 1) * (2 * m - 1) := by
    nlinarith [mul_nonneg (mul_nonneg (show (0:ℝ) ≤ m - 1 by linarith)
      (show (0:ℝ) ≤ m + 1 by linarith)) (show (0:ℝ) ≤ 2 * m - 1 by linarith)]
  have hc2 : 0 ≤ 2 * (m - 1) := by linarith
  have hrw : 2 * m * (2 * m + 1) * (m * (1 - m) * Real.exp x -
      (1 - m ^ 2) * (2 * m - 1) / (2 * m) * Real.exp (x + -(x / m)) -
      (1 - m) / m * Real.exp (-(x / m)) +
      (1 - m ^ 2) / (2 * m) * Real.exp (-x + -(x / m))) =
      2 * m ^ 2 * (1 - m) * (2 * m + 1) * Real.exp x -
      (1 - m ^ 2) * (2 * m - 1) * (2 * m + 1) * Real.exp (x + -(x / m)) -
      2 * (1 - m) * (2 * m + 1) * Real.exp (-(x / m)) +
      (1 - m ^ 2) * (2 * m + 1) * Real.exp (-x + -(x / m)) := by
    field_simp
    ring
  rw [hexy, hexy2]
  have hmain : 2 * m * (2 * m + 1) * (m * (1 - m) * Real.exp x -
      (1 - m ^ 2) * (2 * m - 1) / (2 * m) * Real.exp (x + -(x / m)) -
      (1 - m) / m * Real.exp (-(x / m)) +
      (1 - m ^ 2) / (2 * m) * Real.exp (-x + -(x / m))) ≤ 0 := by
    rw [hrw]
    nlinarith [mul_le_mul_of_nonneg_left hB1 hc1, mul_le_mul_of_nonneg_left hB2 hc2]
  by_contra hcon
  push_neg at hcon
  nlinarith [hmain, hcon, hfac]

lemma mwJ5_nonneg (m t : ℝ) (hm : 0 < m) (hm1 : m ≤ 1) (ht : 0 ≤ t) :
    0 ≤ mwJ5 m t := by
  rw [← fJ5_eq m t]
  have hdf : Differentiable ℝ (fun u => fJ5 m u) := fun u =>
    (fJ5_hasDerivAt m hm.ne' u).differentiableAt
  have hmono : MonotoneOn (fun u => fJ5 m u) (Set.Ici 0) := by
    apply monotoneOn_of_deriv_nonneg (convex_Ici 0) hdf.continuous.continuousOn
      hdf.differentiableOn
    intro x hx
    rw [interior_Ici, Set.mem_Ioi] at hx
    rw [(fJ5_hasDerivAt m hm.ne' x).deriv]
    exact fJ5_deriv_nonneg m x hm hm1 hx.le
  have h : fJ5 m 0 ≤ fJ5 m t := hmono Set.left_mem_Ici (Set.mem_Ici.mpr ht) ht
  rw [fJ5_zero] at h
  exact h

lemma mwJ5_nonpos (m t : ℝ) (hm1 : 1 ≤ m) (ht : 0 ≤ t) : mwJ5 m t ≤ 0 := by
  have hm : 0 < m := lt_of_lt_of_le one_pos hm1
  rw [← fJ5_eq m t]
  have hdf : Differentiable ℝ (fun u => fJ5 m u) := fun u =>
    (fJ5_hasDerivAt m hm.ne' u).differentiableAt
  have hanti : AntitoneOn (fun u => fJ5 m u) (Set.Ici 0) := by
    apply antitoneOn_of_deriv_nonpos (convex_Ici 0) hdf.continuous.continuousOn
      hdf.differentiableOn
    intro x hx
    rw [interior_Ici, Set.mem_Ioi] at hx
    rw [(fJ5_hasDerivAt m hm.ne' x).deriv]
    exact fJ5_deriv_nonpos m x hm1 hx.le
  have h : fJ5 m t ≤ fJ5 m 0 := hanti Set.left_mem_Ici (Set.mem_Ici.mpr ht) ht
  rw [fJ5_zero] at h
  exact h

lemma sinh_le_mul_cosh (x : ℝ) (hx : 0 ≤ x) : Real.sinh x ≤ x * Real.cosh x := by
  have hder : ∀ y : ℝ, HasDerivAt (fun s => s * Real.cosh s - Real.sinh s)
      (y * Real.sinh y) y := by
    intro y
    have h1 : HasDerivAt (fun s : ℝ => s * Real.cosh s)
        (1 * Real.cosh y + y * Real.sinh y) y :=
      (hasDerivAt_id y).mul (Real.hasDerivAt_cosh y)
    have h2 := h1.sub (Real.hasDerivAt_sinh y)
    convert h2 using 1
    ring
  have hdf : Differentiable ℝ (fun s : ℝ => s * Real.cosh s - Real.sinh s) := fun y =>
    (hder y).differentiableAt
  have hmono : MonotoneOn (fun s : ℝ => s * Real.cosh s - Real.sinh s) (Set.Ici 0) := by
    apply monotoneOn_of_deriv_nonneg (convex_Ici 0) hdf.continuous.continuousOn
      hdf.differentiableOn
    intro y hy
    rw [interior_Ici, Set.mem_Ioi] at hy
    rw [(hder y).deriv]
    exact mul_nonneg hy.le (Real.sinh_nonneg_iff.mpr hy.le)
  have h : (0:ℝ) * Real.cosh 0 - Real.sinh 0 ≤ x * Real.cosh x - Real.sinh x :=
    hmono Set.left_mem_Ici (Set.mem_Ici.mpr hx) hx
  simp only [Real.sinh_zero, zero_mul, sub_zero] at h
  linarith

lemma mul_sinh_le (a b : ℝ) (hb : 0 ≤ b) (hab : b ≤ a) :
    a * Real.sinh b ≤ b * Real.sinh a := by
  have hder : ∀ y : ℝ, HasDerivAt (fun s => b * Real.sinh s - s * Real.sinh b)
      (b * Real.cosh y - Real.sinh b) y := by
    intro y
    have h1 := (Real.hasDerivAt_sinh y).const_mul b
    have h2 : HasDerivAt (fun s : ℝ => s * Real.sinh b) (Real.sinh b) y := by
      simpa using (hasDerivAt_id y).mul_const (Real.sinh b)
    exact h1.sub h2
  have hdf : Differentiable ℝ (fun s : ℝ => b * Real.sinh s - s * Real.sinh b) := fun y =>
    (hder y).differentiableAt
  have hmono : MonotoneOn (fun s : ℝ => b * Real.sinh s - s * Real.sinh b)
      (Set.Ici b) := by
    apply monotoneOn_of_deriv_nonneg (convex_Ici b) hdf.continuous.continuousOn
      hdf.differentiableOn
    intro y hy
    rw [interior_Ici, Set.mem_Ioi] at hy
    rw [(hder y).deriv]
    have hcosh : Real.cosh b ≤ Real.cosh y := by
      rw [Real.cosh_le_cosh, abs_of_nonneg hb, abs_of_nonneg (hb.trans hy.le)]
      exact hy.le
    have hb2 : Real.sinh b ≤ b * Real.cosh b := sinh_le_mul_cosh b hb
    nlinarith [mul_le_mul_of_nonneg_left hcosh hb]
  have h : b * Real.sinh b - b * Real.sinh b ≤ b * Real.sinh a - a * Real.sinh b :=
    hmono Set.left_mem_Ici (Set.mem_Ici.mpr hab) hab
  linarith

/-- Crossed product inequality expressing concavity of the hyperbolic
tangent on the nonnegative half line. -/
lemma sinh_cosh_cross (lam v : ℝ) (h0 : 0 ≤ lam) (h1 : lam ≤ 1) (hv : 0 ≤ v) :
    lam * Real.cosh (lam * v) * Real.sinh v ≤ Real.sinh (lam * v) * Real.cosh v := by
  have key := mul_sinh_le ((1 + lam) * v) ((1 - lam) * v)
    (mul_nonneg (by linarith) hv) (by nlinarith)
  have e1 : Real.sinh ((1 + lam) * v) =
      Real.sinh (lam * v) * Real.cosh v + Real.cosh (lam * v) * Real.sinh v := by
    rw [show (1 + lam) * v = lam * v + v by ring, Real.sinh_add]
  have e2 : Real.sinh ((1 - lam) * v) =
      Real.sinh v * Real.cosh (lam * v) - Real.cosh v * Real.sinh (lam * v) := by
    rw [show (1 - lam) * v = v - lam * v by ring, Real.sinh_sub]
  rcases eq_or_lt_of_le hv with hv0 | hv0
  · rw [← hv0]
    simp
  · rw [e1, e2] at key
    nlinarith [key]

lemma mwJ3_alt (m t : ℝ) : mwJ3 m t =
    m * ((1 + mwE m t) * (Real.cosh t - 1) - m * (1 - mwE m t) * Real.sinh t) := by
  have h := expE_mul m t
  simp only [mwJ3, mwU2, mwV1, mwE]
  linear_combination (-m) * h

lemma exp_half_cosh (q : ℝ) :
    1 + Real.exp (-(2 * q)) = 2 * Real.exp (-q) * Real.cosh q := by
  have e1 : Real.exp (-q) * Real.exp q = 1 := by
    rw [← Real.exp_add]
    simp
  have e2 : Real.exp (-q) * Real.exp (-q) = Real.exp (-(2 * q)) := by
    rw [← Real.exp_add]
    ring_nf
  rw [Real.cosh_eq]
  linear_combination - e1 - e2

lemma exp_half_sinh (q : ℝ) :
    1 - Real.exp (-(2 * q)) = 2 * Real.exp (-q) * Real.sinh q := by
  have e1 : Real.exp (-q) * Real.exp q = 1 := by
    rw [← Real.exp_add]
    simp
  have e2 : Real.exp (-q) * Real.exp (-q) = Real.exp (-(2 * q)) := by
    rw [← Real.exp_add]
    ring_nf
  rw [Real.sinh_eq]
  linear_combination - e1 + e2

lemma cosh_sub_one (p : ℝ) : Real.cosh (2 * p) - 1 = 2 * Real.sinh p ^ 2 := by
  rw [Real.cosh_two_mul, Real.cosh_sq]
  ring

lemma mwJ3_nonneg (m t : ℝ) (hm : 0 < m) (hm1 : m ≤ 1) (ht : 0 ≤ t) :
    0 ≤ mwJ3 m t := by
  rw [mwJ3_alt]
  apply mul_nonneg hm.le
  have hq : -(t / m) = -(2 * (t / (2 * m))) := by
    field_simp
    ring
  have ht2 : t = 2 * (m * (t / (2 * m))) := by
    field_simp
    ring
  have hqnn : 0 ≤ t / (2 * m) := by positivity
  have hE1 : 1 + mwE m t = 2 * Real.exp (-(t / (2 * m))) * Real.cosh (t / (2 * m)) := by
    rw [mwE, hq, exp_half_cosh]
  have hE2 : 1 - mwE m t = 2 * Real.exp (-(t / (2 * m))) * Real.sinh (t / (2 * m)) := by
    rw [mwE, hq, exp_half_sinh]
  have hC : Real.cosh t - 1 = 2 * Real.sinh (m * (t / (2 * m))) ^ 2 := by
    nth_rewrite 1 [ht2]
    exact cosh_sub_one _
  have hS : Real.sinh t = 2 * Real.sinh (m * (t / (2 * m))) * Real.cosh (m * (t / (2 * m))) := by
    nth_rewrite 1 [ht2]
    rw [Real.sinh_two_mul]
  rw [hE1, hE2, hC, hS]
  have hcross := sinh_cosh_cross m (t / (2 * m)) hm.le hm1 hqnn
  have hsq : 0 ≤ Real.sinh (m * (t / (2 * m))) := Real.sinh_nonneg_iff.mpr (by positivity)
  have hexpq : 0 ≤ Real.exp (-(t / (2 * m))) := (Real.exp_pos _).le
  nlinarith [mul_nonneg (mul_nonneg hexpq hsq) (sub_nonneg.mpr hcross)]

lemma mwJ3_nonpos (m t : ℝ) (hm1 : 1 ≤ m) (ht : 0 ≤ t) : mwJ3 m t ≤ 0 := by
  have hm : 0 < m := lt_of_lt_of_le one_pos hm1
  rw [mwJ3_alt]
  rw [mul_nonpos_iff]
  left
  refine ⟨hm.le, ?_⟩
  have hq : -(t / m) = -(2 * (t / (2 * m))) := by
    field_simp
    ring
  have ht2 : t = 2 * (m * (t / (2 * m))) := by
    field_simp
    ring
  have hqnn : 0 ≤ t / (2 * m) := by positivity
  have hE1 : 1 + mwE m t = 2 * Real.exp (-(t / (2 * m))) * Real.cosh (t / (2 * m)) := by
    rw [mwE, hq, exp_half_cosh]
  have hE2 : 1 - mwE m t = 2 * Real.exp (-(t / (2 * m))) * Real.sinh (t / (2 * m)) := by
    rw [mwE, hq, exp_half_sinh]
  have hC : Real.cosh t - 1 = 2 * Real.sinh (m * (t / (2 * m))) ^ 2 := by
    nth_rewrite 1 [ht2]
    exact cosh_sub_one _
  have hS : Real.sinh t = 2 * Real.sinh (m * (t / (2 * m))) * Real.cosh (m * (t / (2 * m))) := by
    nth_rewrite 1 [ht2]
    rw [Real.sinh_two_mul]
  rw [hE1, hE2, hC, hS]
  have hq' : (1 / m) * (m * (t / (2 * m))) = t / (2 * m) := by
    field_simp
  have hcross := sinh_cosh_cross (1 / m) (m * (t / (2 * m)))
    (by positivity) (by rw [div_le_one hm]; exact hm1) (by positivity)
  rw [hq'] at hcross
  have hsq : 0 ≤ Real.sinh (m * (t / (2 * m))) := Real.sinh_nonneg_iff.mpr (by positivity)
  have hexpq : 0 ≤ Real.exp (-(t / (2 * m))) := (Real.exp_pos _).le
  have hflip : Real.cosh (t / (2 * m)) * Real.sinh (m * (t / (2 * m))) ≤
      m * Real.sinh (t / (2 * m)) * Real.cosh (m * (t / (2 * m))) := by
    have h2 := mul_le_mul_of_nonneg_left hcross hm.le
    have h3 : m * (1 / m * Real.cosh (t / (2 * m)) * Real.sinh (m * (t / (2 * m)))) =
        Real.cosh (t / (2 * m)) * Real.sinh (m * (t / (2 * m))) := by
      field_simp
    rw [h3] at h2
    nlinarith [h2]
  nlinarith [mul_nonneg (mul_nonneg hexpq hsq) (sub_nonneg.mpr hflip)]

lemma affine_nonneg_ends (b c x lo hi : ℝ) (hl : lo ≤ x) (hu : x ≤ hi)
    (h0 : 0 ≤ c + b * lo) (h1 : 0 ≤ c + b * hi) : 0 ≤ c + b * x := by
  rcases le_total 0 b with hb | hb
  · nlinarith
  · nlinarith

lemma affine_nonpos_ends (b c x lo hi : ℝ) (hl : lo ≤ x) (hu : x ≤ hi)
    (h0 : c + b * lo ≤ 0) (h1 : c + b * hi ≤ 0) : c + b * x ≤ 0 := by
  rcases le_total 0 b with hb | hb
  · nlinarith
  · nlinarith

/-- Scaled energy defect `(1 - R - T) * D / 2` of the direct closed form in
the normalized variables `m = k*mu`, `t = k*tau`, with `g3` the direct
upscatter fraction and `w` the single-scattering albedo. -/
def mwQ (m t k g1 g2 g3 w : ℝ) : ℝ :=
  (1 - mwE m t) * (1 - m ^ 2) * (k * Real.cosh t + g1 * Real.sinh t) -
    w * ((g1 * g3 + g2 * (1 - g3)) * mwU2 m t + k * g3 * mwU1 m t +
      (g1 * (1 - g3) + g2 * g3) * (mwE m t * mwV1 m t) +
      k * (1 - g3) * (mwE m t * mwV2 m t))

lemma mwQ_nonneg (m t k g1 g2 g3 w : ℝ) (hm : 0 < m) (hm1 : m ≤ 1) (ht : 0 ≤ t)
    (hg2 : 0 ≤ g2) (hg21 : g2 ≤ g1) (hkl : g1 - g2 ≤ k) (hku : k ≤ g1)
    (hg3 : 0 ≤ g3) (hg31 : g3 ≤ 1) (hw : 0 ≤ w) (hw1 : w ≤ 1) :
    0 ≤ mwQ m t k g1 g2 g3 w := by
  have hEp := mwE_pos m t
  have hE1 := mwE_le_one m t hm ht
  have hC := Real.cosh_pos t
  have hS : 0 ≤ Real.sinh t := Real.sinh_nonneg_iff.mpr ht
  have hk0 : 0 ≤ k := le_trans (by linarith) hkl
  have hg1 : 0 ≤ g1 := le_trans hg2 hg21
  have hU1 := mwU1_nonneg m t hm hm1 ht
  have hU2 := mwU2_nonneg m t hm hm1 ht
  have hEV1 : 0 ≤ mwE m t * mwV1 m t := mul_nonneg hEp.le (mwV1_nonneg m t hm hm1 ht)
  have hEV2 : 0 ≤ mwE m t * mwV2 m t := mul_nonneg hEp.le (mwV2_nonneg m t hm hm1 ht)
  have hJ2 := mwJ2_nonneg m t hm hm1 ht
  have hJ3 := mwJ3_nonneg m t hm hm1 ht
  have hJ5 := mwJ5_nonneg m t hm hm1 ht
  have hJ1 : 0 ≤ mwJ1 m t := by
    have hid : mwJ1 m t = mwJ2 m t + mwU2 m t := by
      simp only [mwJ2]
      ring
    rw [hid]
    linarith
  have hJ4 : 0 ≤ mwJ4 m t := by
    have hid : mwJ4 m t = mwJ5 m t + mwE m t * mwV1 m t := by
      simp only [mwJ5]
      ring
    rw [hid]
    linarith
  have hm2 : 0 ≤ 1 - m ^ 2 := by nlinarith
  have hZB : 0 ≤ (1 - mwE m t) * (1 - m ^ 2) * Real.sinh t * g1 -
      (g2 * mwU2 m t + g1 * (mwE m t * mwV1 m t)) +
      ((1 - mwE m t) * (1 - m ^ 2) * Real.cosh t - mwE m t * mwV2 m t) * k := by
    apply affine_nonneg_ends _ _ k (g1 - g2) g1 hkl hku
    · have hid : (1 - mwE m t) * (1 - m ^ 2) * Real.sinh t * g1 -
          (g2 * mwU2 m t + g1 * (mwE m t * mwV1 m t)) +
          ((1 - mwE m t) * (1 - m ^ 2) * Real.cosh t - mwE m t * mwV2 m t) * (g1 - g2) =
          (g1 - g2) * mwJ1 m t + g2 * mwJ3 m t := by
        simp only [mwJ1, mwJ3]
        ring
      rw [hid]
      have := mul_nonneg (show (0:ℝ) ≤ g1 - g2 by linarith) hJ1
      have := mul_nonneg hg2 hJ3
      linarith
    · have hid : (1 - mwE m t) * (1 - m ^ 2) * Real.sinh t * g1 -
          (g2 * mwU2 m t + g1 * (mwE m t * mwV1 m t)) +
          ((1 - mwE m t) * (1 - m ^ 2) * Real.cosh t - mwE m t * mwV2 m t) * g1 =
          (g1 - g2) * mwJ1 m t + g2 * mwJ2 m t := by
        simp only [mwJ1, mwJ2]
        ring
      rw [hid]
      have := mul_nonneg (show (0:ℝ) ≤ g1 - g2 by linarith) hJ1
      have := mul_nonneg hg2 hJ2
      linarith
  have hZA : 0 ≤ (1 - mwE m t) * (1 - m ^ 2) * Real.sinh t * g1 -
      (g1 * mwU2 m t + g2 * (mwE m t * mwV1 m t)) +
      ((1 - mwE m t) * (1 - m ^ 2) * Real.cosh t - mwU1 m t) * k := by
    apply affine_nonneg_ends _ _ k (g1 - g2) g1 hkl hku
    · have hid : (1 - mwE m t) * (1 - m ^ 2) * Real.sinh t * g1 -
          (g1 * mwU2 m t + g2 * (mwE m t * mwV1 m t)) +
          ((1 - mwE m t) * (1 - m ^ 2) * Real.cosh t - mwU1 m t) * (g1 - g2) =
          (g1 - g2) * mwJ4 m t + g2 * mwJ3 m t := by
        simp only [mwJ4, mwJ3]
        ring
      rw [hid]
      have := mul_nonneg (show (0:ℝ) ≤ g1 - g2 by linarith) hJ4
      have := mul_nonneg hg2 hJ3
      linarith
    · have hid : (1 - mwE m t) * (1 - m ^ 2) * Real.sinh t * g1 -
          (g1 * mwU2 m t + g2 * (mwE m t * mwV1 m t)) +
          ((1 - mwE m t) * (1 - m ^ 2) * Real.cosh t - mwU1 m t) * g1 =
          (g1 - g2) * mwJ4 m t + g2 * mwJ5 m t := by
        simp only [mwJ4, mwJ5]
        ring
      rw [hid]
      have := mul_nonneg (show (0:ℝ) ≤ g1 - g2 by linarith) hJ4
      have := mul_nonneg hg2 hJ5
      linarith
  have hZ : 0 ≤ (1 - mwE m t) * (1 - m ^ 2) * (k * Real.cosh t + g1 * Real.sinh t) -
      ((g1 * g3 + g2 * (1 - g3)) * mwU2 m t + k * g3 * mwU1 m t +
        (g1 * (1 - g3) + g2 * g3) * (mwE m t * mwV1 m t) +
        k * (1 - g3) * (mwE m t * mwV2 m t)) := by
    have hid : (1 - mwE m t) * (1 - m ^ 2) * (k * Real.cosh t + g1 * Real.sinh t) -
        ((g1 * g3 + g2 * (1 - g3)) * mwU2 m t + k * g3 * mwU1 m t +
          (g1 * (1 - g3) + g2 * g3) * (mwE m t * mwV1 m t) +
          k * (1 - g3) * (mwE m t * mwV2 m t)) =
        (1 - g3) * ((1 - mwE m t) * (1 - m ^ 2) * Real.sinh t * g1 -
          (g2 * mwU2 m t + g1 * (mwE m t * mwV1 m t)) +
          ((1 - mwE m t) * (1 - m ^ 2) * Real.cosh t - mwE m t * mwV2 m t) * k) +
        g3 * ((1 - mwE m t) * (1 - m ^ 2) * Real.sinh t * g1 -
          (g1 * mwU2 m t + g2 * (mwE m t * mwV1 m t)) +
          ((1 - mwE m t) * (1 - m ^ 2) * Real.cosh t - mwU1 m t) * k) := by
      ring
    rw [hid]
    have := mul_nonneg (show (0:ℝ) ≤ 1 - g3 by linarith) hZB
    have := mul_nonneg hg3 hZA
    linarith
  have hbase : 0 ≤ (1 - mwE m t) * (1 - m ^ 2) *
      (k * Real.cosh t + g1 * Real.sinh t) := by
    apply mul_nonneg (mul_nonneg (by linarith) hm2)
    have := mul_nonneg hk0 hC.le
    have := mul_nonneg hg1 hS
    linarith
  have hid : mwQ m t k g1 g2 g3 w =
      (1 - w) * ((1 - mwE m t) * (1 - m ^ 2) * (k * Real.cosh t + g1 * Real.sinh t)) +
      w * ((1 - mwE m t) * (1 - m ^ 2) * (k * Real.cosh t + g1 * Real.sinh t) -
        ((g1 * g3 + g2 * (1 - g3)) * mwU2 m t + k * g3 * mwU1 m t +
          (g1 * (1 - g3) + g2 * g3) * (mwE m t * mwV1 m t) +
          k * (1 - g3) * (mwE m t * mwV2 m t))) := by
    simp only [mwQ]
    ring
  rw [hid]
  have := mul_nonneg (show (0:ℝ) ≤ 1 - w by linarith) hbase
  have := mul_nonneg hw hZ
  linarith

lemma mwQ_nonpos (m t k g1 g2 g3 w : ℝ) (hm1 : 1 ≤ m) (ht : 0 ≤ t)
    (hg2 : 0 ≤ g2) (hg21 : g2 ≤ g1) (hkl : g1 - g2 ≤ k) (hku : k ≤ g1)
    (hg3 : 0 ≤ g3) (hg31 : g3 ≤ 1) (hw : 0 ≤ w) (hw1 : w ≤ 1) :
    mwQ m t k g1 g2 g3 w ≤ 0 := by
  have hm : 0 < m := lt_of_lt_of_le one_pos hm1
  have hEp := mwE_pos m t
  have hE1 := mwE_le_one m t hm ht
  have hC := Real.cosh_pos t
  have hS : 0 ≤ Real.sinh t := Real.sinh_nonneg_iff.mpr ht
  have hk0 : 0 ≤ k := le_trans (by linarith) hkl
  have hg1 : 0 ≤ g1 := le_trans hg2 hg21
  have hU1 := mwU1_nonpos m t hm1 ht
  have hU2 := mwU2_nonpos m t hm1 ht
  have hEV1 : mwE m t * mwV1 m t ≤ 0 :=
    mul_nonpos_of_nonneg_of_nonpos hEp.le (mwV1_nonpos m t hm1 ht)
  have hEV2 : mwE m t * mwV2 m t ≤ 0 :=
    mul_nonpos_of_nonneg_of_nonpos hEp.le (mwV2_nonpos m t hm1 ht)
  have hJ2 := mwJ2_nonpos m t hm1 ht
  have hJ3 := mwJ3_nonpos m t hm1 ht
  have hJ5 := mwJ5_nonpos m t hm1 ht
  have hJ1 : mwJ1 m t ≤ 0 := by
    have hid : mwJ1 m t = mwJ2 m t + mwU2 m t := by
      simp only [mwJ2]
      ring
    rw [hid]
    linarith
  have hJ4 : mwJ4 m t ≤ 0 := by
    have hid : mwJ4 m t = mwJ5 m t + mwE m t * mwV1 m t := by
      simp only [mwJ5]
      ring
    rw [hid]
    linarith
  have hm2 : 1 - m ^ 2 ≤ 0 := by nlinarith
  have hZB : (1 - mwE m t) * (1 - m ^ 2) * Real.sinh t * g1 -
      (g2 * mwU2 m t + g1 * (mwE m t * mwV1 m t)) +
      ((1 - mwE m t) * (1 - m ^ 2) * Real.cosh t - mwE m t * mwV2 m t) * k ≤ 0 := by
    apply affine_nonpos_ends _ _ k (g1 - g2) g1 hkl hku
    · have hid : (1 - mwE m t) * (1 - m ^ 2) * Real.sinh t * g1 -
          (g2 * mwU2 m t + g1 * (mwE m t * mwV1 m t)) +
          ((1 - mwE m t) * (1 - m ^ 2) * Real.cosh t - mwE m t * mwV2 m t) * (g1 - g2) =
          (g1 - g2) * mwJ1 m t + g2 * mwJ3 m t := by
        simp only [mwJ1, mwJ3]
        ring
      rw [hid]
      have := mul_nonpos_of_nonneg_of_nonpos (show (0:ℝ) ≤ g1 - g2 by linarith) hJ1
      have := mul_nonpos_of_nonneg_of_nonpos hg2 hJ3
      linarith
    · have hid : (1 - mwE m t) * (1 - m ^ 2) * Real.sinh t * g1 -
          (g2 * mwU2 m t + g1 * (mwE m t * mwV1 m t)) +
          ((1 - mwE m t) * (1 - m ^ 2) * Real.cosh t - mwE m t * mwV2 m t) * g1 =
          (g1 - g2) * mwJ1 m t + g2 * mwJ2 m t := by
        simp only [mwJ1, mwJ2]
        ring
      rw [hid]
      have := mul_nonpos_of_nonneg_of_nonpos (show (0:ℝ) ≤ g1 - g2 by linarith) hJ1
      have := mul_nonpos_of_nonneg_of_nonpos hg2 hJ2
      linarith
  have hZA : (1 - mwE m t) * (1 - m ^ 2) * Real.sinh t * g1 -
      (g1 * mwU2 m t + g2 * (mwE m t * mwV1 m t)) +
      ((1 - mwE m t) * (1 - m ^ 2) * Real.cosh t - mwU1 m t) * k ≤ 0 := by
    apply affine_nonpos_ends _ _ k (g1 - g2) g1 hkl hku
    · have hid : (1 - mwE m t) * (1 - m ^ 2) * Real.sinh t * g1 -
          (g1 * mwU2 m t + g2 * (mwE m t * mwV1 m t)) +
          ((1 - mwE m t) * (1 - m ^ 2) * Real.cosh t - mwU1 m t) * (g1 - g2) =
          (g1 - g2) * mwJ4 m t + g2 * mwJ3 m t := by
        simp only [mwJ4, mwJ3]
        ring
      rw [hid]
      have := mul_nonpos_of_nonneg_of_nonpos (show (0:ℝ) ≤ g1 - g2 by linarith) hJ4
      have := mul_nonpos_of_nonneg_of_nonpos hg2 hJ3
      linarith
    · have hid : (1 - mwE m t) * (1 - m ^ 2) * Real.sinh t * g1 -
          (g1 * mwU2 m t + g2 * (mwE m t * mwV1 m t)) +
          ((1 - mwE m t) * (1 - m ^ 2) * Real.cosh t - mwU1 m t) * g1 =
          (g1 - g2) * mwJ4 m t + g2 * mwJ5 m t := by
        simp only [mwJ4, mwJ5]
        ring
      rw [hid]
      have := mul_nonpos_of_nonneg_of_nonpos (show (0:ℝ) ≤ g1 - g2 by linarith) hJ4
      have := mul_nonpos_of_nonneg_of_nonpos hg2 hJ5
      linarith
  have hZ : (1 - mwE m t) * (1 - m ^ 2) * (k * Real.cosh t + g1 * Real.sinh t) -
      ((g1 * g3 + g2 * (1 - g3)) * mwU2 m t + k * g3 * mwU1 m t +
        (g1 * (1 - g3) + g2 * g3) * (mwE m t * mwV1 m t) +
        k * (1 - g3) * (mwE m t * mwV2 m t)) ≤ 0 := by
    have hid : (1 - mwE m t) * (1 - m ^ 2) * (k * Real.cosh t + g1 * Real.sinh t) -
        ((g1 * g3 + g2 * (1 - g3)) * mwU2 m t + k * g3 * mwU1 m t +
          (g1 * (1 - g3) + g2 * g3) * (mwE m t * mwV1 m t) +
          k * (1 - g3) * (mwE m t * mwV2 m t)) =
        (1 - g3) * ((1 - mwE m t) * (1 - m ^ 2) * Real.sinh t * g1 -
          (g2 * mwU2 m t + g1 * (mwE m t * mwV1 m t)) +
          ((1 - mwE m t) * (1 - m ^ 2) * Real.cosh t - mwE m t * mwV2 m t) * k) +
        g3 * ((1 - mwE m t) * (1 - m ^ 2) * Real.sinh t * g1 -
          (g1 * mwU2 m t + g2 * (mwE m t * mwV1 m t)) +
          ((1 - mwE m t) * (1 - m ^ 2) * Real.cosh t - mwU1 m t) * k) := by
      ring
    rw [hid]
    have := mul_nonpos_of_nonneg_of_nonpos (show (0:ℝ) ≤ 1 - g3 by linarith) hZB
    have := mul_nonpos_of_nonneg_of_nonpos hg3 hZA
    linarith
  have hbase : (1 - mwE m t) * (1 - m ^ 2) *
      (k * Real.cosh t + g1 * Real.sinh t) ≤ 0 := by
    apply mul_nonpos_of_nonpos_of_nonneg
    · apply mul_nonpos_of_nonneg_of_nonpos (by linarith) hm2
    · have := mul_nonneg hk0 hC.le
      have := mul_nonneg hg1 hS
      linarith
  have hid : mwQ m t k g1 g2 g3 w =
      (1 - w) * ((1 - mwE m t) * (1 - m ^ 2) * (k * Real.cosh t + g1 * Real.sinh t)) +
      w * ((1 - mwE m t) * (1 - m ^ 2) * (k * Real.cosh t + g1 * Real.sinh t) -
        ((g1 * g3 + g2 * (1 - g3)) * mwU2 m t + k * g3 * mwU1 m t +
          (g1 * (1 - g3) + g2 * g3) * (mwE m t * mwV1 m t) +
          k * (1 - g3) * (mwE m t * mwV2 m t))) := by
    simp only [mwQ]
    ring
  rw [hid]
  have := mul_nonpos_of_nonneg_of_nonpos (show (0:ℝ) ≤ 1 - w by linarith) hbase
  have := mul_nonpos_of_nonneg_of_nonpos hw hZ
  linarith

set_option maxHeartbeats 1600000 in
/-- Range bounds for the direct-beam closed form: with the Meador-Weaver
coefficient relations of `rtDirect` (here `k`, `a1`, `a2`, `D`, `R`, `T`
given by their defining equations) and physical parameters, the returned
reflectance/transmittance pair lies in the unit simplex.  When `D = 0`
(conservative scattering `k = 0` or the removable singularity
`k*mu = 1`) the Lean division-by-zero convention yields `R = 0` and
`T = exp(-tau/mu)`, which also satisfy the bounds. -/
lemma direct_core (mu tau g1 g2 g3 w : ℝ)
    (hg2 : 0 ≤ g2) (hg12 : g2 ≤ g1) (hg3 : 0 ≤ g3) (hg31 : g3 ≤ 1)
    (hw : 0 ≤ w) (hw1 : w ≤ 1) (hmu : 0 < mu) (hmu1 : mu ≤ 1) (htau : 0 ≤ tau)
    (k a1 a2 D R T : ℝ)
    (hk : k = Real.sqrt (g1 * g1 - g2 * g2))
    (ha1 : a1 = g1 * (1 - g3) + g2 * g3)
    (ha2 : a2 = g1 * g3 + g2 * (1 - g3))
    (hD : D = (1 - k * k * mu * mu) *
      ((k + g1) * Real.exp (k * tau) + (k - g1) * Real.exp (-(k * tau))))
    (hR : R = w / D * ((1 - k * mu) * (a2 + k * g3) * Real.exp (k * tau) -
      (1 + k * mu) * (a2 - k * g3) * Real.exp (-(k * tau)) -
      2 * k * (g3 - a2 * mu) * Real.exp (-(tau / mu))))
    (hT : T = Real.exp (-(tau / mu)) * (1 - w / D *
      ((1 + k * mu) * (a1 + k * (1 - g3)) * Real.exp (k * tau) -
       (1 - k * mu) * (a1 - k * (1 - g3)) * Real.exp (-(k * tau)) -
       2 * k * ((1 - g3) + a1 * mu) * Real.exp (tau / mu)))) :
    0 ≤ R ∧ R ≤ 1 ∧ 0 ≤ T ∧ T ≤ 1 ∧ R + T ≤ 1 := by
  subst hR hT ha1 ha2
  have hg1 : 0 ≤ g1 := le_trans hg2 hg12
  have hE1 : Real.exp (-(tau / mu)) ≤ 1 :=
    Real.exp_le_one_iff.mpr (neg_nonpos.mpr (div_nonneg htau hmu.le))
  have hE0 : 0 < Real.exp (-(tau / mu)) := Real.exp_pos _
  rcases eq_or_ne D 0 with hD0 | hDne
  · rw [hD0]
    simp only [div_zero, zero_mul, mul_zero, sub_zero, mul_one]
    refine ⟨le_rfl, by norm_num, hE0.le, hE1, by linarith⟩
  · have hknn : 0 ≤ k := hk ▸ Real.sqrt_nonneg _
    have hksq : k * k = g1 * g1 - g2 * g2 := by
      rw [hk]
      exact Real.mul_self_sqrt (by nlinarith)
    have hkle : k ≤ g1 := by
      rw [hk]
      calc Real.sqrt (g1 * g1 - g2 * g2) ≤ Real.sqrt (g1 * g1) :=
            Real.sqrt_le_sqrt (by nlinarith)
        _ = g1 := Real.sqrt_mul_self hg1
    have hkge : g1 - g2 ≤ k := by
      rw [hk]
      calc g1 - g2 = Real.sqrt ((g1 - g2) * (g1 - g2)) :=
            (Real.sqrt_mul_self (by linarith)).symm
        _ ≤ Real.sqrt (g1 * g1 - g2 * g2) :=
            Real.sqrt_le_sqrt (by nlinarith [mul_nonneg hg2 (sub_nonneg.mpr hg12)])
    have hkpos : 0 < k := by
      rcases eq_or_lt_of_le hknn with h0 | h
      · exfalso
        apply hDne
        rw [hD, ← h0]
        simp
      · exact h
    set t := k * tau with ht_def
    have htnn : 0 ≤ t := mul_nonneg hknn htau
    have hCpos := Real.cosh_pos t
    have hSnn : 0 ≤ Real.sinh t := Real.sinh_nonneg_iff.mpr htnn
    have hmpos : 0 < k * mu := mul_pos hkpos hmu
    have hm1le' : k * mu ≤ k := by nlinarith
    have hmne : k * mu ≠ 1 := by
      intro h1
      apply hDne
      rw [hD]
      have h2 : k * k * mu * mu = 1 := by nlinarith
      rw [h2]
      norm_num
    have hEeq : Real.exp (-(tau / mu)) = mwE (k * mu) t := by
      rw [mwE]
      congr 1
      rw [ht_def]
      field_simp
      ring
    have hPeq : Real.exp (tau / mu) = Real.exp (t / (k * mu)) := by
      congr 1
      rw [ht_def]
      field_simp
      ring
    have hxc : Real.exp t = Real.cosh t + Real.sinh t := (Real.cosh_add_sinh t).symm
    have hxs : Real.exp (-t) = Real.cosh t - Real.sinh t := (Real.cosh_sub_sinh t).symm
    have hDid : D = 2 * ((1 - (k * mu) ^ 2) * (k * Real.cosh t + g1 * Real.sinh t)) := by
      rw [hD, hxc, hxs]
      ring
    have hDSpos : 0 < k * Real.cosh t + g1 * Real.sinh t := by
      have h1 := mul_pos hkpos hCpos
      have h2 := mul_nonneg hg1 hSnn
      linarith
    have ha1nn : 0 ≤ g1 * (1 - g3) + g2 * g3 :=
      add_nonneg (mul_nonneg hg1 (by linarith)) (mul_nonneg hg2 hg3)
    have ha2nn : 0 ≤ g1 * g3 + g2 * (1 - g3) :=
      add_nonneg (mul_nonneg hg1 hg3) (mul_nonneg hg2 (by linarith))
    have hNid : (1 - k * mu) * (g1 * g3 + g2 * (1 - g3) + k * g3) * Real.exp t -
        (1 + k * mu) * (g1 * g3 + g2 * (1 - g3) - k * g3) * Real.exp (-t) -
        2 * k * (g3 - (g1 * g3 + g2 * (1 - g3)) * mu) * Real.exp (-(tau / mu)) =
        2 * ((g1 * g3 + g2 * (1 - g3)) * mwU2 (k * mu) t +
          k * g3 * mwU1 (k * mu) t) := by
      rw [hEeq, hxc, hxs]
      simp only [mwU1, mwU2, mwE]
      ring
    have hN2id : (1 + k * mu) * (g1 * (1 - g3) + g2 * g3 + k * (1 - g3)) * Real.exp t -
        (1 - k * mu) * (g1 * (1 - g3) + g2 * g3 - k * (1 - g3)) * Real.exp (-t) -
        2 * k * (1 - g3 + (g1 * (1 - g3) + g2 * g3) * mu) * Real.exp (tau / mu) =
        -(2 * ((g1 * (1 - g3) + g2 * g3) * mwV1 (k * mu) t +
          k * (1 - g3) * mwV2 (k * mu) t)) := by
      rw [hPeq, hxc, hxs]
      simp only [mwV1, mwV2]
      ring
    rw [hNid, hN2id, hEeq]
    clear hNid hN2id hPeq hxc hxs hEeq hD hk hksq
    rcases hmne.lt_or_lt with hmlt | hmgt
    · have hm1le : k * mu ≤ 1 := hmlt.le
      have h1m2 : 0 < 1 - (k * mu) ^ 2 := by nlinarith
      have hDpos : 0 < D := by
        rw [hDid]
        have := mul_pos h1m2 hDSpos
        linarith
      have hU1 := mwU1_nonneg (k * mu) t hmpos hm1le htnn
      have hU2 := mwU2_nonneg (k * mu) t hmpos hm1le htnn
      have hV1 := mwV1_nonneg (k * mu) t hmpos hm1le htnn
      have hV2 := mwV2_nonneg (k * mu) t hmpos hm1le htnn
      have hNnn : 0 ≤ 2 * ((g1 * g3 + g2 * (1 - g3)) * mwU2 (k * mu) t +
          k * g3 * mwU1 (k * mu) t) := by
        have h1 := mul_nonneg ha2nn hU2
        have h2 := mul_nonneg (mul_nonneg hknn hg3) hU1
        linarith
      have hBnn : 0 ≤ 2 * ((g1 * (1 - g3) + g2 * g3) * mwV1 (k * mu) t +
          k * (1 - g3) * mwV2 (k * mu) t) := by
        have h1 := mul_nonneg ha1nn hV1
        have h2 := mul_nonneg (mul_nonneg hknn (show (0:ℝ) ≤ 1 - g3 by linarith)) hV2
        linarith
      have hR0 : 0 ≤ w / D * (2 * ((g1 * g3 + g2 * (1 - g3)) * mwU2 (k * mu) t +
          k * g3 * mwU1 (k * mu) t)) :=
        mul_nonneg (div_nonneg hw hDpos.le) hNnn
      have hT0 : 0 ≤ mwE (k * mu) t * (1 - w / D *
          -(2 * ((g1 * (1 - g3) + g2 * g3) * mwV1 (k * mu) t +
            k * (1 - g3) * mwV2 (k * mu) t))) := by
        apply mul_nonneg (mwE_pos _ _).le
        have h1 : w / D * -(2 * ((g1 * (1 - g3) + g2 * g3) * mwV1 (k * mu) t +
            k * (1 - g3) * mwV2 (k * mu) t)) ≤ 0 :=
          mul_nonpos_of_nonneg_of_nonpos (div_nonneg hw hDpos.le) (by linarith)
        linarith
      have hQnn := mwQ_nonneg (k * mu) t k g1 g2 g3 w hmpos hm1le htnn hg2 hg12
        hkge hkle hg3 hg31 hw hw1
      have hfrac : 1 - (w / D * (2 * ((g1 * g3 + g2 * (1 - g3)) * mwU2 (k * mu) t +
          k * g3 * mwU1 (k * mu) t)) + mwE (k * mu) t * (1 - w / D *
          -(2 * ((g1 * (1 - g3) + g2 * g3) * mwV1 (k * mu) t +
            k * (1 - g3) * mwV2 (k * mu) t)))) =
          2 * mwQ (k * mu) t k g1 g2 g3 w / D := by
        rw [eq_div_iff hDne]
        field_simp
        rw [hDid]
        simp only [mwQ]
        ring
      have hQD : 0 ≤ 2 * mwQ (k * mu) t k g1 g2 g3 w / D :=
        div_nonneg (by linarith) hDpos.le
      have hsum : w / D * (2 * ((g1 * g3 + g2 * (1 - g3)) * mwU2 (k * mu) t +
          k * g3 * mwU1 (k * mu) t)) + mwE (k * mu) t * (1 - w / D *
          -(2 * ((g1 * (1 - g3) + g2 * g3) * mwV1 (k * mu) t +
            k * (1 - g3) * mwV2 (k * mu) t))) ≤ 1 := by
        linarith [hfrac, hQD]
      exact ⟨hR0, by linarith, hT0, by linarith, hsum⟩
    · have hm1ge : 1 ≤ k * mu := hmgt.le
      have h1m2 : 1 - (k * mu) ^ 2 ≤ 0 := by nlinarith
      have hDneg : D < 0 := by
        rw [hDid]
        rcases eq_or_lt_of_le h1m2 with h0 | hlt
        · exfalso
          exact hmne (by nlinarith)
        · nlinarith [hDSpos]
      have hU1 := mwU1_nonpos (k * mu) t hm1ge htnn
      have hU2 := mwU2_nonpos (k * mu) t hm1ge htnn
      have hV1 := mwV1_nonpos (k * mu) t hm1ge htnn
      have hV2 := mwV2_nonpos (k * mu) t hm1ge htnn
      have hNnp : 2 * ((g1 * g3 + g2 * (1 - g3)) * mwU2 (k * mu) t +
          k * g3 * mwU1 (k * mu) t) ≤ 0 := by
        have h1 := mul_nonpos_of_nonneg_of_nonpos ha2nn hU2
        have h2 := mul_nonpos_of_nonneg_of_nonpos (mul_nonneg hknn hg3) hU1
        linarith
      have hBnp : 2 * ((g1 * (1 - g3) + g2 * g3) * mwV1 (k * mu) t +
          k * (1 - g3) * mwV2 (k * mu) t) ≤ 0 := by
        have h1 := mul_nonpos_of_nonneg_of_nonpos ha1nn hV1
        have h2 := mul_nonpos_of_nonneg_of_nonpos
          (mul_nonneg hknn (show (0:ℝ) ≤ 1 - g3 by linarith)) hV2
        linarith
      have hwD : w / D ≤ 0 := div_nonpos_iff.mpr (Or.inl ⟨hw, hDneg.le⟩)
      have hR0 : 0 ≤ w / D * (2 * ((g1 * g3 + g2 * (1 - g3)) * mwU2 (k * mu) t +
          k * g3 * mwU1 (k * mu) t)) := by
        nlinarith [mul_nonneg (neg_nonneg.mpr hwD) (neg_nonneg.mpr hNnp)]
      have hT0 : 0 ≤ mwE (k * mu) t * (1 - w / D *
          -(2 * ((g1 * (1 - g3) + g2 * g3) * mwV1 (k * mu) t +
            k * (1 - g3) * mwV2 (k * mu) t))) := by
        apply mul_nonneg (mwE_pos _ _).le
        have h1 : w / D * -(2 * ((g1 * (1 - g3) + g2 * g3) * mwV1 (k * mu) t +
            k * (1 - g3) * mwV2 (k * mu) t)) ≤ 0 := by
          nlinarith [mul_nonneg (neg_nonneg.mpr hwD) (neg_nonneg.mpr hBnp)]
        linarith
      have hQnp := mwQ_nonpos (k * mu) t k g1 g2 g3 w hm1ge htnn hg2 hg12
        hkge hkle hg3 hg31 hw hw1
      have hfrac : 1 - (w / D * (2 * ((g1 * g3 + g2 * (1 - g3)) * mwU2 (k * mu) t +
          k * g3 * mwU1 (k * mu) t)) + mwE (k * mu) t * (1 - w / D *
          -(2 * ((g1 * (1 - g3) + g2 * g3) * mwV1 (k * mu) t +
            k * (1 - g3) * mwV2 (k * mu) t)))) =
          2 * mwQ (k * mu) t k g1 g2 g3 w / D := by
        rw [eq_div_iff hDne]
        field_simp
        rw [hDid]
        simp only [mwQ]
        ring
      have hQD : 0 ≤ 2 * mwQ (k * mu) t k g1 g2 g3 w / D :=
        div_nonneg_of_nonpos (by linarith) hDneg.le
      have hsum : w / D * (2 * ((g1 * g3 + g2 * (1 - g3)) * mwU2 (k * mu) t +
          k * g3 * mwU1 (k * mu) t)) + mwE (k * mu) t * (1 - w / D *
          -(2 * ((g1 * (1 - g3) + g2 * g3) * mwV1 (k * mu) t +
            k * (1 - g3) * mwV2 (k * mu) t))) ≤ 1 := by
        linarith [hfrac, hQD]
      exact ⟨hR0, by linarith, hT0, by linarith, hsum⟩

/-- Range invariant for the direct-beam closed form: on the valid
parameter domain `rtDirect` succeeds and its reflectance and
transmittance lie in `[0,1]` with `R + T` at most `1`.  The positivity
of `muBarVal` reflects that the source's `muBar()` integrates the
positive quantity `mu'/G(mu')`. -/
lemma rtDirect_range (l : canopyLayer)
    (hr0 : 0 ≤ l.leaf_r) (ht0 : 0 ≤ l.leaf_t) (hw : l.leaf_r + l.leaf_t ≤ 1)
    (hlai : 0 ≤ l.lai) (hmu0 : 0 < l.mu) (hmu1 : l.mu ≤ 1)
    (hG : 0 < l.gval) (hZ : 0 < l.zval)
    (hBdif0 : 0 ≤ l.bDif) (hBdif1 : l.bDif ≤ 1)
    (hBdir0 : 0 ≤ l.bDir) (hBdir1 : l.bDir ≤ 1) (hmuBar : 0 < l.muBarVal)
    (hsup : supported l.gamma_scaling_direct) :
    ∃ R T, rtDirect l = Except.ok (R, T) ∧
      0 ≤ R ∧ R ≤ 1 ∧ 0 ≤ T ∧ T ≤ 1 ∧ R + T ≤ 1 := by
  obtain ⟨scale, hsc, hg⟩ : ∃ s, 0 < s ∧
      getGamma l l.gamma_scaling_direct = Except.ok
        ((1 - (1 - l.bDif) * l.w) * s, (l.w * l.bDif) * s,
         l.bDir, 1 - l.bDir) := by
    rcases hsup with h | h
    · exact ⟨1 / (l.gval * l.muBarVal),
        div_pos one_pos (mul_pos hG hmuBar), by rw [h]; exact getGamma_delta l⟩
    · exact ⟨Real.sqrt 3, Real.sqrt_pos.mpr (by norm_num),
        by rw [h]; exact getGamma_quad l⟩
  have hw0 : 0 ≤ l.w := add_nonneg hr0 ht0
  have hw1 : l.w ≤ 1 := hw
  set g1 := (1 - (1 - l.bDif) * l.w) * scale with hg1_def
  set g2 := (l.w * l.bDif) * scale with hg2_def
  have hg2nn : 0 ≤ g2 := mul_nonneg (mul_nonneg hw0 hBdif0) hsc.le
  have hg12 : g2 ≤ g1 := by
    rw [hg1_def, hg2_def]
    nlinarith
  set tau := l.lai * l.gval * l.zval with htau_def
  have htau : 0 ≤ tau := by positivity
  set k := Real.sqrt (g1 * g1 - g2 * g2) with hk_def
  set a1 := g1 * (1 - l.bDir) + g2 * l.bDir with ha1_def
  set a2 := g1 * l.bDir + g2 * (1 - l.bDir) with ha2_def
  set D := (1 - k * k * l.mu * l.mu) *
      ((k + g1) * Real.exp (k * tau) + (k - g1) * Real.exp (-(k * tau))) with hD_def
  have hgoal : rtDirect l = Except.ok
      (l.w / D * ((1 - k * l.mu) * (a2 + k * l.bDir) * Real.exp (k * tau) -
        (1 + k * l.mu) * (a2 - k * l.bDir) * Real.exp (-(k * tau)) -
        2 * k * (l.bDir - a2 * l.mu) * Real.exp (-(tau / l.mu))),
       Real.exp (-(tau / l.mu)) * (1 - l.w / D *
        ((1 + k * l.mu) * (a1 + k * (1 - l.bDir)) * Real.exp (k * tau) -
         (1 - k * l.mu) * (a1 - k * (1 - l.bDir)) * Real.exp (-(k * tau)) -
         2 * k * (1 - l.bDir + a1 * l.mu) * Real.exp (tau / l.mu)))) := by
    rw [rtDirect, hg]
    rfl
  obtain ⟨h1, h2, h3, h4, h5⟩ := direct_core l.mu tau g1 g2 l.bDir l.w hg2nn hg12
    hBdir0 hBdir1 hw0 hw1 hmu0 hmu1 htau k a1 a2 D _ _ hk_def ha1_def ha2_def
    hD_def rfl rfl
  exact ⟨_, _, hgoal, h1, h2, h3, h4, h5⟩

/-- C5: for all valid inputs (`leaf_r`, `leaf_t` in `[0,1]` with
`leaf_r + leaf_t` at most `1`, `lai` nonnegative, `mu` in `(0,1]`,
`G(mu) > 0`, `Z(mu) > 0`, upscatter fractions `B` and `B0` in `[0,1]`,
and positive average inverse diffuse optical depth `muBar`, which the
source derives by integrating the positive quantity `mu'/G(mu')`), every
reflectance/transmittance pair returned by `rtDiffuse` and `rtDirect`
satisfies `R` in `[0,1]`, `T` in `[0,1]`, and `R + T` at most `1`. -/
theorem rt_range (l : canopyLayer)
    (hr0 : 0 ≤ l.leaf_r) (hr1 : l.leaf_r ≤ 1)
    (ht0 : 0 ≤ l.leaf_t) (ht1 : l.leaf_t ≤ 1)
    (hw : l.leaf_r + l.leaf_t ≤ 1) (hlai : 0 ≤ l.lai)
    (hmu0 : 0 < l.mu) (hmu1 : l.mu ≤ 1) (hG : 0 < l.gval) (hZ : 0 < l.zval)
    (hBdif0 : 0 ≤ l.bDif) (hBdif1 : l.bDif ≤ 1)
    (hBdir0 : 0 ≤ l.bDir) (hBdir1 : l.bDir ≤ 1) (hmuBar : 0 < l.muBarVal)
    (hsupDif : supported l.gamma_scaling_diffuse)
    (hsupDir : supported l.gamma_scaling_direct) :
    (∃ R T, rtDiffuse l = Except.ok (R, T) ∧
      0 ≤ R ∧ R ≤ 1 ∧ 0 ≤ T ∧ T ≤ 1 ∧ R + T ≤ 1) ∧
    (∃ R T, rtDirect l = Except.ok (R, T) ∧
      0 ≤ R ∧ R ≤ 1 ∧ 0 ≤ T ∧ T ≤ 1 ∧ R + T ≤ 1) :=
  ⟨rtDiffuse_range l hr0 ht0 hw hlai hG hZ hBdif0 hBdif1 hmuBar hsupDif,
   rtDirect_range l hr0 ht0 hw hlai hmu0 hmu1 hG hZ hBdif0 hBdif1 hBdir0 hBdir1
     hmuBar hsupDir⟩

/-- Witness for C5 at the concrete layer `exLayer`. -/
theorem rt_range_witness :
    (∃ R T, rtDiffuse exLayer = Except.ok (R, T) ∧
      0 ≤ R ∧ R ≤ 1 ∧ 0 ≤ T ∧ T ≤ 1 ∧ R + T ≤ 1) ∧
    (∃ R T, rtDirect exLayer = Except.ok (R, T) ∧
      0 ≤ R ∧ R ≤ 1 ∧ 0 ≤ T ∧ T ≤ 1 ∧ R + T ≤ 1) :=
  rt_range exLayer (by norm_num [exLayer]) (by norm_num [exLayer])
    (by norm_num [exLayer]) (by norm_num [exLayer]) (by norm_num [exLayer])
    (by norm_num [exLayer]) (by norm_num [exLayer]) (by norm_num [exLayer])
    (by norm_num [exLayer]) (by norm_num [exLayer]) (by norm_num [exLayer])
    (by norm_num [exLayer]) (by norm_num [exLayer]) (by norm_num [exLayer])
    (by norm_num [exLayer]) (Or.inr rfl) (Or.inr rfl)

end CanopyRT

end
